import Mathlib

/-!
Verification development for the usage-aggregation engine of
`scripts/codex_usage_recalc_server.py` (a local AI token-usage dashboard
recalculation service).

Shallow embedding notes:
* A log line is modelled as `Option JObj`: `none` stands for a blank line or a
  line on which `json.loads` raises `JSONDecodeError` (both are skipped by the
  source), and `some kvs` stands for a line whose JSON parse yields an object.
  Lines whose JSON parse yields a non-object value (e.g. `42` or `"x"`) are
  outside the modelled input grammar: on such lines the source would raise an
  uncaught `AttributeError` at the very first `.get` call.  JSON objects
  produced by `json.loads` have unique keys (later duplicates overwrite
  earlier ones), so key lists are looked up by first match.
* JSON numbers are modelled as integers only (`JVal.int`); float literals are
  not part of the modelled grammar.  JSON booleans are kept distinct
  (`JVal.bool`), and the places where the source calls `isinstance(x, int)`
  accept them, because Python's `bool` is a subclass of `int`.
* Python exceptions that the source does *not* catch (the `AttributeError`
  raised by `.get` on a truthy non-dict) are modelled with `Except Unit`.
* `datetime.fromisoformat` is modelled for the common subset
  `YYYY-MM-DD[{T or space}HH:MM[:SS]][±HH:MM]`; `astimezone()` is modelled by
  an explicit local-timezone parameter `tz : Int → Int` giving the local UTC
  offset in minutes as a function of the instant (covering DST).
* Python dicts are modelled as association lists in insertion order; dict
  equality is extensional (`afind`).
-/

/-- JSON values as produced by `json.loads` (floats omitted from the model). -/
inductive JVal : Type where
  | null : JVal
  | bool : Bool → JVal
  | int : Int → JVal
  | str : String → JVal
  | arr : List JVal → JVal
  | obj : List (String × JVal) → JVal

/-- A JSON object: what a well-formed log line parses to. -/
abbrev JObj := List (String × JVal)

/-- First-match lookup in a JSON object (json.loads objects have unique keys),
modelling `d.get(k)` on a dict: `none` is Python's `None` default. -/
def jfind : JObj → String → Option JVal
  | [], _ => none
  | (k, v) :: t, a => if k = a then some v else jfind t a

/-- Python truthiness of a JSON value. -/
def pyTruthy : JVal → Bool
  | .null => false
  | .bool b => b
  | .int n => n ≠ 0
  | .str s => s ≠ ""
  | .arr l => !l.isEmpty
  | .obj kvs => !kvs.isEmpty

/-- `x or {}`: Python's `or` with an empty-dict right operand, applied to a
`d.get(k)` result (`none` = Python `None`, which is falsy). -/
def orEmptyObj : Option JVal → JVal
  | none => .obj []
  | some v => if pyTruthy v then v else .obj []

/-- `x.get(k)` on an arbitrary value `x`: raises `AttributeError` (modelled as
`Except.error ()`) unless `x` is a dict. -/
def pyGetE : JVal → String → Except Unit (Option JVal)
  | .obj kvs, k => .ok (jfind kvs k)
  | _, _ => .error ()

/-- `v == "s"` for a `d.get(k)` result against a string literal: only a string
value equal to `s` compares equal (Python `==` across types is `False`). -/
def jStrEq (v : Option JVal) (s : String) : Bool :=
  match v with
  | some (.str t) => t = s
  | _ => false

/-- `isinstance(v, int)` with the integer value: Python `bool` is an `int`
subclass, so `True` acts as `1` and `False` as `0`. -/
def asPyInt : JVal → Option Int
  | .int n => some n
  | .bool b => some (if b then 1 else 0)
  | _ => none

/-- `_safe_int(value)` from the source, applied to a `usage.get(k)` result:
`value if isinstance(value, int) and value >= 0 else 0`.  Booleans pass the
`isinstance` check (`bool` is an `int` subclass) and act as `0`/`1`; every
other non-integer, a missing value, and a negative integer give `0`. -/
def safeInt (v : Option JVal) : Nat :=
  match v with
  | some (.int n) => if 0 ≤ n then n.toNat else 0
  | some (.bool b) => if b then 1 else 0
  | _ => 0

/-- A calendar date (`datetime.date`); ordered lexicographically. -/
structure Date where
  year : Int
  month : Int
  day : Int
deriving DecidableEq, Repr

/-- `a < b` on `datetime.date` values (lexicographic). -/
def dateLt (a b : Date) : Bool :=
  if a.year < b.year then true
  else if b.year < a.year then false
  else if a.month < b.month then true
  else if b.month < a.month then false
  else decide (a.day < b.day)

/-- `a <= b` on `datetime.date` values (lexicographic). -/
def dateLe (a b : Date) : Bool :=
  if a.year < b.year then true
  else if b.year < a.year then false
  else if a.month < b.month then true
  else if b.month < a.month then false
  else decide (a.day ≤ b.day)

/-- Leap-year test of the proleptic Gregorian calendar (`calendar.isleap`). -/
def isLeap (y : Int) : Bool :=
  y % 4 = 0 && (y % 100 ≠ 0 || y % 400 = 0)

/-- Number of days in a month, as used by `datetime.date` validation. -/
def daysInMonth (y m : Int) : Int :=
  if m = 2 then (if isLeap y then 29 else 28)
  else if m = 4 ∨ m = 6 ∨ m = 9 ∨ m = 11 then 30
  else 31

/-- `datetime.date(y, m, d)` returning `none` instead of raising `ValueError`:
valid iff `1 <= y <= 9999`, `1 <= m <= 12`, `1 <= d <= days_in_month`. -/
def mkDate? (y m d : Int) : Option Date :=
  if 1 ≤ y ∧ y ≤ 9999 ∧ 1 ≤ m ∧ m ≤ 12 ∧ 1 ≤ d ∧ d ≤ daysInMonth y m then
    some ⟨y, m, d⟩
  else none

/-- Days since 1970-01-01 of a civil date (Howard Hinnant's `days_from_civil`,
using floor division throughout). -/
def daysFromCivil (y m d : Int) : Int :=
  let yy := if m ≤ 2 then y - 1 else y
  let era := yy.fdiv 400
  let yoe := yy - era * 400
  let mp := (m + 9) % 12
  let doy := (153 * mp + 2).fdiv 5 + d - 1
  let doe := yoe * 365 + yoe.fdiv 4 - yoe.fdiv 100 + doy
  era * 146097 + doe - 719468

/-- Civil date of a days-since-1970-01-01 count (Hinnant's `civil_from_days`). -/
def civilFromDays (z0 : Int) : Date :=
  let z := z0 + 719468
  let era := z.fdiv 146097
  let doe := z - era * 146097
  let yoe := (doe - doe.fdiv 1460 + doe.fdiv 36524 - doe.fdiv 146096).fdiv 365
  let y := yoe + era * 400
  let doy := doe - (365 * yoe + yoe.fdiv 4 - yoe.fdiv 100)
  let mp := (5 * doy + 2).fdiv 153
  let d := doy - (153 * mp + 2).fdiv 5 + 1
  let m := mp + (if mp < 10 then 3 else -9)
  ⟨if m ≤ 2 then y + 1 else y, m, d⟩

/-- `DailyTotals` from the source: a per-date value record. -/
structure DailyTotals where
  date : Date
  sessions : Int
  total_tokens : Int
deriving DecidableEq, Repr

/-- First-match association-list lookup, modelling `dict.get` for the model's
dicts (all of which are built with unique keys). -/
def afind {α β : Type} [DecidableEq α] : List (α × β) → α → Option β
  | [], _ => none
  | (k, v) :: t, a => if k = a then some v else afind t a

/-- `d.setdefault(k, init)` followed by an in-place mutation of the stored
value: if `k` is absent, append `v0` (the mutated initial value); otherwise
map the stored value through `g`. -/
def aupd {α β : Type} [DecidableEq α] (m : List (α × β)) (k : α) (g : β → β) (v0 : β) :
    List (α × β) :=
  match afind m k with
  | none => m ++ [(k, v0)]
  | some _ => m.map (fun p => if p.1 = k then (p.1, g p.2) else p)


/-! ## Provider A: the cumulative-snapshot (event-stream) log parser -/

/-- A provider-A session file: its path segments relative to the sessions
root (as produced by `file_path.relative_to(root).parts`, the file name
included) and its lines. -/
structure CodexFile where
  parts : List String
  lines : List (Option JObj)

/-- Decimal digit value. -/
def digitVal? (c : Char) : Option Nat :=
  if '0' ≤ c ∧ c ≤ '9' then some (c.toNat - '0'.toNat) else none

/-- Digits-only accumulator for `pyInt?` / the timestamp parser. -/
def digitsVal : List Char → Nat → Option Nat
  | [], acc => some acc
  | c :: cs, acc =>
    match digitVal? c with
    | some d => digitsVal cs (acc * 10 + d)
    | none => none

/-- `int(s)` returning `none` instead of raising `ValueError`, modelled for
plain optionally-signed decimal literals. -/
def pyInt? (s : String) : Option Int :=
  match s.data with
  | [] => none
  | '-' :: cs => if cs.isEmpty then none else (digitsVal cs 0).map (fun n => -(n : Int))
  | '+' :: cs => if cs.isEmpty then none else (digitsVal cs 0).map (fun n => (n : Int))
  | cs => (digitsVal cs 0).map (fun n => (n : Int))

/-- The year/month/day decode of a provider-A file path (source lines 82-91):
skip files with fewer than four path segments below the root, parse the first
three segments as integers and validate them as a date; any failure skips the
file. -/
def codexFileDate? (f : CodexFile) : Option Date :=
  if f.parts.length < 4 then none
  else
    match f.parts with
    | p0 :: p1 :: p2 :: _ =>
      match pyInt? p0, pyInt? p1, pyInt? p2 with
      | some y, some m, some d => mkDate? y m d
      | _, _, _ => none
    | _ => none

/-- One iteration of the `_parse_codex_session_usage` loop body (source lines
56-71), producing `.ok (some n)` when the line is a valid `event_msg` /
`token_count` snapshot with an `isinstance(..., int)` total, `.ok none` when
the line is skipped, and `.error ()` when the source would raise an uncaught
`AttributeError` (a `.get` on a truthy non-dict `payload`, `info` or
`total_token_usage`). -/
def snapLine (line : Option JObj) : Except Unit (Option Int) :=
  match line with
  | none => .ok none
  | some ev =>
    if jStrEq (jfind ev "type") "event_msg" then
      match orEmptyObj (jfind ev "payload") with
      | .obj pkvs =>
        if jStrEq (jfind pkvs "type") "token_count" then
          match orEmptyObj (jfind pkvs "info") with
          | .obj ikvs =>
            match orEmptyObj (jfind ikvs "total_token_usage") with
            | .obj tkvs => .ok ((jfind tkvs "total_tokens").bind asPyInt)
            | _ => .error ()
          | _ => .error ()
        else .ok none
      | _ => .error ()
    else .ok none

/-- The `latest_total` fold of `_parse_codex_session_usage`: a valid snapshot
replaces the running value, a skipped line keeps it, a raising line aborts. -/
def codexUsageFold : Option Int → List (Option JObj) → Except Unit (Option Int)
  | latest, [] => .ok latest
  | latest, l :: ls =>
    match snapLine l with
    | .error e => .error e
    | .ok (some n) => codexUsageFold (some n) ls
    | .ok none => codexUsageFold latest ls

/-- `_parse_codex_session_usage` (source lines 53-72). -/
def parseCodexSessionUsage (lines : List (Option JObj)) : Except Unit (Option Int) :=
  codexUsageFold none lines

/-- `totals.setdefault(usage_date, DailyTotals(date=usage_date))` followed by
`daily.sessions += 1; daily.total_tokens += usage_tokens` (source lines 97-99). -/
def codexBump (totals : List (Date × DailyTotals)) (d : Date) (v : Int) :
    List (Date × DailyTotals) :=
  aupd totals d
    (fun t => { t with sessions := t.sessions + 1, total_tokens := t.total_tokens + v })
    { date := d, sessions := 0 + 1, total_tokens := 0 + v }

/-- The file loop of `_collect_codex_daily_totals` (source lines 81-99). -/
def codexCollectFold :
    List (Date × DailyTotals) → List CodexFile → Except Unit (List (Date × DailyTotals))
  | acc, [] => .ok acc
  | acc, f :: fs =>
    match codexFileDate? f with
    | none => codexCollectFold acc fs
    | some d =>
      match parseCodexSessionUsage f.lines with
      | .error e => .error e
      | .ok none => codexCollectFold acc fs
      | .ok (some v) => codexCollectFold (codexBump acc d v) fs

/-- `_collect_codex_daily_totals` (source lines 75-101): `root = none` models a
sessions root that does not exist, which yields an empty mapping. -/
def collectCodexDailyTotals (root : Option (List CodexFile)) :
    Except Unit (List (Date × DailyTotals)) :=
  match root with
  | none => .ok []
  | some fs => codexCollectFold [] fs

/-! ## Timestamp parsing (`_parse_timestamp_local`) -/

/-- ASCII whitespace, for `str.strip()`. -/
def isPySpace (c : Char) : Bool :=
  c = ' ' ∨ c = '\t' ∨ c = '\n' ∨ c = '\r' ∨ c = '\x0b' ∨ c = '\x0c'

/-- `s.strip()` on a character list. -/
def pyStrip (s : List Char) : List Char :=
  ((s.dropWhile isPySpace).reverse.dropWhile isPySpace).reverse

/-- Two decimal digits. -/
def two? : List Char → Option (Nat × List Char)
  | a :: b :: rest =>
    match digitVal? a, digitVal? b with
    | some x, some y => some (10 * x + y, rest)
    | _, _ => none
  | _ => none

/-- Four decimal digits. -/
def four? : List Char → Option (Nat × List Char)
  | a :: b :: c :: d :: rest =>
    match digitVal? a, digitVal? b, digitVal? c, digitVal? d with
    | some w, some x, some y, some z => some (1000 * w + 100 * x + 10 * y + z, rest)
    | _, _, _, _ => none
  | _ => none

/-- A parsed ISO timestamp: civil fields plus an optional UTC offset in
minutes (`none` = a naive timestamp). -/
structure IsoDT where
  year : Int
  month : Int
  day : Int
  hour : Int
  minute : Int
  second : Int
  offset : Option Int
deriving DecidableEq, Repr

/-- `±HH:MM` offset tail of an ISO string: consumed entirely or the parse
fails; an empty tail means a naive timestamp. -/
def parseOffset? : List Char → Option (Option Int)
  | [] => some none
  | '+' :: rest => (parseHM? rest).map (fun m => some m)
  | '-' :: rest => (parseHM? rest).map (fun m => some (-m))
  | _ => none
where
  parseHM? (cs : List Char) : Option Int :=
    match two? cs with
    | some (h, ':' :: r2) =>
      match two? r2 with
      | some (mi, []) => if h ≤ 23 ∧ mi ≤ 59 then some ((h : Int) * 60 + mi) else none
      | _ => none
    | _ => none

/-- `HH:MM[:SS]` followed by an optional offset. -/
def parseTime? (cs : List Char) : Option (Nat × Nat × Nat × Option Int) :=
  match two? cs with
  | some (h, ':' :: r1) =>
    match two? r1 with
    | some (mi, r2) =>
      if h ≤ 23 ∧ mi ≤ 59 then
        match r2 with
        | ':' :: r3 =>
          match two? r3 with
          | some (s, r4) =>
            if s ≤ 59 then (parseOffset? r4).map (fun o => (h, mi, s, o)) else none
          | none => none
        | _ => (parseOffset? r2).map (fun o => (h, mi, 0, o))
      else none
    | none => none
  | _ => none

/-- `datetime.fromisoformat`, modelled for the common subset
`YYYY-MM-DD[{T or space}HH:MM[:SS]][±HH:MM]` with `datetime`'s own range
validation. -/
def fromIso (cs : List Char) : Option IsoDT :=
  match four? cs with
  | some (y, '-' :: r1) =>
    match two? r1 with
    | some (mo, '-' :: r2) =>
      match two? r2 with
      | some (d, r3) =>
        if 1 ≤ (y : Int) ∧ 1 ≤ (mo : Int) ∧ (mo : Int) ≤ 12 ∧ 1 ≤ (d : Int) ∧
            (d : Int) ≤ daysInMonth y mo then
          match r3 with
          | [] => some ⟨y, mo, d, 0, 0, 0, none⟩
          | c :: r4 =>
            if c = 'T' ∨ c = ' ' then
              (parseTime? r4).map (fun q => ⟨y, mo, d, q.1, q.2.1, q.2.2.1, q.2.2.2⟩)
            else none
        else none
      | none => none
    | _ => none
  | _ => none

/-- The absolute instant (seconds since 1970-01-01T00:00:00Z) of a parsed
timestamp; a missing offset is treated as `+00:00`, which models source lines
117-118 (`parsed.replace(tzinfo=dt.timezone.utc)` for naive values). -/
def isoInstant (r : IsoDT) : Int :=
  daysFromCivil r.year r.month r.day * 86400 + r.hour * 3600 + r.minute * 60 + r.second
    - (r.offset.getD 0) * 60

/-- The `Z`-suffix rewrite of source lines 109-110: a stripped value ending in
a literal `Z` has the `Z` replaced by `+00:00` before parsing. -/
def normZ (s : List Char) : List Char :=
  if s.getLast? = some 'Z' then s.dropLast ++ ("+00:00".data) else s

/-- Strip, normalize the `Z` suffix, parse, and resolve to an instant. -/
def tsInstant? (s : List Char) : Option Int :=
  (fromIso (normZ (pyStrip s))).map isoInstant

/-- `_parse_timestamp_local` (source lines 104-120), resolved to the absolute
instant of the parsed timestamp.  `astimezone()` does not change the instant;
the local calendar date is taken by `dateOfInstant` below. -/
def parseTimestampLocal (v : Option JVal) : Option Int :=
  match v with
  | some (.str s) => if s = "" then none else tsInstant? s.data
  | _ => none

/-- The local calendar date of an instant: `tz` gives the local UTC offset in
minutes as a function of the instant (modelling `astimezone()` under any local
system timezone, DST included). -/
def dateOfInstant (tz : Int → Int) (t : Int) : Date :=
  civilFromDays ((t + tz t * 60).fdiv 86400)

/-! ## Provider B: the request-log (conversation) parser -/

/-- A provider-B log file: its filename stem (the fallback session scope) and
its lines. -/
structure ClaudeFile where
  stem : String
  lines : List (Option JObj)

/-- One observation extracted from a provider-B log line: the resolved session
id, the request id, the timestamp instant, and the four `_safe_int`-cleaned
usage counters. -/
structure Obs where
  sessionId : String
  requestId : String
  ts : Int
  input_tokens : Nat
  cache_creation_input_tokens : Nat
  cache_read_input_tokens : Nat
  output_tokens : Nat
deriving DecidableEq, Repr

/-- The per-key merged record kept in `request_usage` (source lines 172-179):
the stored four counters are `_safe_int` outputs, hence naturals, so the
re-application of `_safe_int` to stored values at lines 183-192 is the
identity and is dropped here. -/
structure MergedRec where
  sessionId : String
  ts : Int
  input_tokens : Nat
  cache_creation_input_tokens : Nat
  cache_read_input_tokens : Nat
  output_tokens : Nat
deriving DecidableEq, Repr

/-- The line filter of `_collect_claude_daily_totals` (source lines 134-169):
a line is considered only with a non-empty string `requestId`, a parseable
timestamp, and dict-typed (or falsy, hence `or {}`-defaulted) `message` and
`usage`; `sessionId` falls back to the filename stem when absent, non-string
or empty. -/
def extractLine (stem : String) (line : Option JObj) : Option Obs :=
  match line with
  | none => none
  | some ev =>
    match jfind ev "requestId" with
    | some (.str rid) =>
      if rid = "" then none
      else
        match parseTimestampLocal (jfind ev "timestamp") with
        | none => none
        | some t =>
          match orEmptyObj (jfind ev "message") with
          | .obj mkvs =>
            match orEmptyObj (jfind mkvs "usage") with
            | .obj ukvs =>
              let sid :=
                match jfind ev "sessionId" with
                | some (.str s) => if s = "" then stem else s
                | _ => stem
              some
                { sessionId := sid
                  requestId := rid
                  ts := t
                  input_tokens := safeInt (jfind ukvs "input_tokens")
                  cache_creation_input_tokens :=
                    safeInt (jfind ukvs "cache_creation_input_tokens")
                  cache_read_input_tokens := safeInt (jfind ukvs "cache_read_input_tokens")
                  output_tokens := safeInt (jfind ukvs "output_tokens") }
            | _ => none
          | _ => none
    | _ => none

/-- The dedupe key `(session_id, request_id)` (source line 163). -/
def obsKey (o : Obs) : String × String := (o.sessionId, o.requestId)

/-- First sighting of a key: store the observation as-is (source lines 171-180). -/
def obsRec (o : Obs) : MergedRec :=
  { sessionId := o.sessionId
    ts := o.ts
    input_tokens := o.input_tokens
    cache_creation_input_tokens := o.cache_creation_input_tokens
    cache_read_input_tokens := o.cache_read_input_tokens
    output_tokens := o.output_tokens }

/-- Later sighting of a key: keep the later timestamp and the field-wise
maxima (source lines 182-192). -/
def mergeRec (r : MergedRec) (o : Obs) : MergedRec :=
  { sessionId := r.sessionId
    ts := max r.ts o.ts
    input_tokens := max r.input_tokens o.input_tokens
    cache_creation_input_tokens :=
      max r.cache_creation_input_tokens o.cache_creation_input_tokens
    cache_read_input_tokens := max r.cache_read_input_tokens o.cache_read_input_tokens
    output_tokens := max r.output_tokens o.output_tokens }

/-- The `request_usage` update for one observation. -/
def updKey (m : List ((String × String) × MergedRec)) (o : Obs) :
    List ((String × String) × MergedRec) :=
  aupd m (obsKey o) (fun r => mergeRec r o) (obsRec o)

/-- All observations of a provider-B input, in file order then line order. -/
def claudeObs (fs : List ClaudeFile) : List Obs :=
  fs.flatMap (fun f => f.lines.filterMap (extractLine f.stem))

/-- The fully folded `request_usage` dict (source lines 129-192). -/
def claudeMerge (fs : List ClaudeFile) : List ((String × String) × MergedRec) :=
  (claudeObs fs).foldl updKey []

/-- The four-counter sum a deduplicated request contributes (source lines
203-208). -/
def sum4 (r : MergedRec) : Nat :=
  r.input_tokens + r.cache_creation_input_tokens + r.cache_read_input_tokens +
    r.output_tokens

/-- `set.add` on the insertion-ordered model of a Python set. -/
def insertSid (l : List String) (s : String) : List String :=
  if s ∈ l then l else l ++ [s]

/-- One iteration of the bucketing loop (source lines 196-213): bump the
date's `total_tokens` and record the session id in the date's session set
(the `isinstance(timestamp, dt.datetime)` guard at line 198 is always true in
the model, every stored timestamp being a parsed one). -/
def bucketStep (tz : Int → Int) (acc : List (Date × DailyTotals) × List (Date × List String))
    (r : MergedRec) : List (Date × DailyTotals) × List (Date × List String) :=
  let d := dateOfInstant tz r.ts
  let totals := aupd acc.1 d
    (fun t => { t with total_tokens := t.total_tokens + (sum4 r : Int) })
    { date := d, sessions := 0, total_tokens := (0 : Int) + (sum4 r : Int) }
  let sess :=
    if r.sessionId = "" then acc.2
    else aupd acc.2 d (fun l => insertSid l r.sessionId) (insertSid [] r.sessionId)
  (totals, sess)

/-- `totals[usage_date].sessions = len(sessions)`. -/
def setSessions (n : Int) (t : DailyTotals) : DailyTotals :=
  { date := t.date, sessions := n, total_tokens := t.total_tokens }

/-- The final pass (source lines 215-217): for each date with a session set,
overwrite `sessions` with the set's size if the date is present in `totals`. -/
def applySessStep (totals : List (Date × DailyTotals)) (p : Date × List String) :
    List (Date × DailyTotals) :=
  if (afind totals p.1).isSome then
    totals.map (fun q => if q.1 = p.1 then (q.1, setSessions (p.2.length : Int) q.2) else q)
  else totals

/-- The bucketing of merged records into daily totals (source lines 194-217). -/
def claudeTotalsOf (tz : Int → Int) (vals : List MergedRec) : List (Date × DailyTotals) :=
  let acc := vals.foldl (bucketStep tz) ([], [])
  acc.2.foldl applySessStep acc.1

/-- `_collect_claude_daily_totals` (source lines 123-219): `root = none`
models a projects root that does not exist. -/
def collectClaudeDailyTotals (tz : Int → Int) (root : Option (List ClaudeFile)) :
    List (Date × DailyTotals) :=
  match root with
  | none => []
  | some fs => claudeTotalsOf tz ((claudeMerge fs).map Prod.snd)

/-! ## Combiner, range summarizer, summary -/

/-- One item of one provider folded into the combined mapping (source lines
226-229): `setdefault` then add both fields. -/
def combineBump (c : List (Date × DailyTotals)) (x : Date × DailyTotals) :
    List (Date × DailyTotals) :=
  aupd c x.1
    (fun t => { t with sessions := t.sessions + x.2.sessions,
                       total_tokens := t.total_tokens + x.2.total_tokens })
    { date := x.1, sessions := 0 + x.2.sessions, total_tokens := 0 + x.2.total_tokens }

/-- Fold one provider mapping into the combined mapping (source lines 225-229). -/
def combineStep (combined provider : List (Date × DailyTotals)) :
    List (Date × DailyTotals) :=
  provider.foldl combineBump combined

/-- The option-level per-date addition the combiner performs: absent dates
contribute zero, and a date absent from every input is absent from the
result. -/
def addO (d : Date) (o1 o2 : Option DailyTotals) : Option DailyTotals :=
  match o1, o2 with
  | none, none => none
  | _, _ =>
    some { date := d
           sessions := o1.elim 0 (fun t => t.sessions) + o2.elim 0 (fun t => t.sessions)
           total_tokens :=
             o1.elim 0 (fun t => t.total_tokens) + o2.elim 0 (fun t => t.total_tokens) }

/-- `_combine_daily_totals` (source lines 222-231). -/
def combineDailyTotals (providers : List (List (Date × DailyTotals))) :
    List (Date × DailyTotals) :=
  providers.foldl combineStep []

/-- `_sum_range` (source lines 234-243). -/
def sumRange (daily : List (Date × DailyTotals)) (from_date to_date : Date) : Int × Int :=
  if dateLt to_date from_date then (0, 0)
  else
    daily.foldl
      (fun acc p =>
        if dateLe from_date p.1 && dateLe p.1 to_date then
          (acc.1 + p.2.sessions, acc.2 + p.2.total_tokens)
        else acc)
      (0, 0)

/-- The summary record of `_summary_from_daily` (source lines 268-276). -/
structure UsageSummary where
  ytd_total_tokens : Int
  days_with_usage : Int
  sessions : Int
  highest_single_day : Int
deriving DecidableEq, Repr

/-- `_summary_from_daily` (source lines 268-276): `max(..., default=0)` is the
list maximum when the mapping is non-empty and `0` otherwise. -/
def summaryFromDaily (daily : List (Date × DailyTotals)) : UsageSummary :=
  let days := daily.map Prod.snd
  let highest :=
    match days.map (fun t => t.total_tokens) with
    | [] => 0
    | x :: xs => xs.foldl max x
  { ytd_total_tokens := (days.map (fun t => t.total_tokens)).sum
    days_with_usage := (days.length : Int)
    sessions := (days.map (fun t => t.sessions)).sum
    highest_single_day := highest }

/-! ## Derived definitions used in the statements and proofs -/

/-- The valid snapshot values of a provider-A file, in line order: the values
of the lines `snapLine` accepts. -/
def validSnaps (lines : List (Option JObj)) : List Int :=
  lines.filterMap (fun l =>
    match snapLine l with
    | .ok (some n) => some n
    | _ => none)

/-- The per-file contributions of a provider-A input: for each file whose path
decodes to a date and that has at least one valid snapshot, the pair of that
date and the *last* valid snapshot value. -/
def codexContribs (fs : List CodexFile) : List (Date × Int) :=
  fs.filterMap (fun f =>
    match codexFileDate? f with
    | some d => ((validSnaps f.lines).getLast?).map (fun v => (d, v))
    | none => none)

/-- The totals component of `bucketStep` in isolation. -/
def tokStep (tz : Int → Int) (ts : List (Date × DailyTotals)) (r : MergedRec) :
    List (Date × DailyTotals) :=
  aupd ts (dateOfInstant tz r.ts)
    (fun t => { t with total_tokens := t.total_tokens + (sum4 r : Int) })
    { date := dateOfInstant tz r.ts, sessions := 0,
      total_tokens := (0 : Int) + (sum4 r : Int) }

/-- The session-set component of `bucketStep` in isolation. -/
def sidStep (tz : Int → Int) (ss : List (Date × List String)) (r : MergedRec) :
    List (Date × List String) :=
  if r.sessionId = "" then ss
  else
    aupd ss (dateOfInstant tz r.ts) (fun l => insertSid l r.sessionId)
      (insertSid [] r.sessionId)

/-- One step of the per-key merge, at the level of an optional stored record:
a first sighting stores the observation, a later one merges it. -/
def mergeStepO (c : Option MergedRec) (o : Obs) : Option MergedRec :=
  match c with
  | none => some (obsRec o)
  | some r => some (mergeRec r o)

/-- The per-key merge of a list of observations. -/
def mergeFoldOpt (c : Option MergedRec) (os : List Obs) : Option MergedRec :=
  os.foldl mergeStepO c

/-- The session ids (after the non-empty filter of source line 212) of the
merged records landing on a date. -/
def sidsOn (tz : Int → Int) (vals : List MergedRec) (d : Date) : List String :=
  ((vals.filter (fun r => dateOfInstant tz r.ts = d)).map (fun r => r.sessionId)).filter
    (fun s => s ≠ "")

/-- The per-date characterization of provider-A collection: one session and
the last-snapshot value per contributing file, summed per date. -/
def codexChar (fs : List CodexFile) (m : List (Date × DailyTotals)) : Prop :=
  ∀ d : Date,
    afind m d =
      if ((codexContribs fs).filter (fun p => p.1 = d)).isEmpty then none
      else
        some { date := d
               sessions := (((codexContribs fs).filter (fun p => p.1 = d)).length : Int)
               total_tokens :=
                 ((((codexContribs fs).filter (fun p => p.1 = d)).map (fun p => p.2)).sum) }

/-- A well-formed provider-A snapshot line carrying the given total value. -/
def snapObj (v : JVal) : JObj :=
  [("type", JVal.str "event_msg"),
   ("payload", JVal.obj
     [("type", JVal.str "token_count"),
      ("info", JVal.obj [("total_token_usage", JVal.obj [("total_tokens", v)])])])]

/-- Concrete provider-A file with snapshots 250 then 100: the contribution is
the last value 100, not the maximum 250 and not the sum 350. -/
def codexFileA : CodexFile :=
  ⟨["2026", "02", "27", "a.jsonl"], [some (snapObj (.int 250)), some (snapObj (.int 100))]⟩

/-- Concrete provider-A file whose second line parses as JSON but carries a
truthy non-dict `payload`: the source raises an uncaught `AttributeError` on
`payload.get("type")`. -/
def codexCrashFile : CodexFile :=
  ⟨["2026", "02", "27", "b.jsonl"],
   [some (snapObj (.int 100)), some [("type", JVal.str "event_msg"), ("payload", JVal.str "x")]]⟩

/-- Concrete provider-A file with a single negative snapshot total: the parser
accepts any `isinstance(..., int)` value, negative ones included. -/
def codexNegFile : CodexFile :=
  ⟨["2026", "02", "27", "c.jsonl"], [some (snapObj (.int (-5)))]⟩

/-- Decidable equality of `Except` results, for concrete evaluations. -/
instance exceptDecEq {e a : Type} [DecidableEq e] [DecidableEq a] :
    DecidableEq (Except e a) := fun x y =>
  match x, y with
  | .error u, .error v =>
    if h : u = v then .isTrue (by rw [h]) else .isFalse (fun hc => h (Except.error.inj hc))
  | .ok u, .ok v =>
    if h : u = v then .isTrue (by rw [h]) else .isFalse (fun hc => h (Except.ok.inj hc))
  | .error _, .ok _ => .isFalse (fun hc => Except.noConfusion hc)
  | .ok _, .error _ => .isFalse (fun hc => Except.noConfusion hc)

/-- A well-formed provider-B log line. -/
def mkClaudeLine (sid rid tsStr : String) (inTok cc cr outTok : JVal) : JObj :=
  [("requestId", JVal.str rid), ("timestamp", JVal.str tsStr), ("sessionId", JVal.str sid),
   ("message", JVal.obj [("usage", JVal.obj
     [("input_tokens", inTok), ("cache_creation_input_tokens", cc),
      ("cache_read_input_tokens", cr), ("output_tokens", outTok)])])]

/-- Concrete provider-B file with a `Z`-suffixed timestamp shortly after
midnight UTC, for the timezone bucketing claim. -/
def claudeFileZ : ClaudeFile :=
  ⟨"proj", [some (mkClaudeLine "s1" "r1" "2026-01-02T00:30:00Z" (.int 7) (.int 0) (.int 0) (.int 0))]⟩

/-- Concrete provider-B file with two lines for the same `(sessionId,
requestId)` key: `output_tokens` observed as 8 then 177, the other three
fields fixed at 10/20/30. -/
def claudeFileDup : ClaudeFile :=
  ⟨"proj",
   [some (mkClaudeLine "s1" "req-1" "2026-03-01T10:00:00Z" (.int 10) (.int 20) (.int 30) (.int 8)),
    some (mkClaudeLine "s1" "req-1" "2026-03-01T11:00:00Z" (.int 10) (.int 20) (.int 30) (.int 177))]⟩

/-- The same file with its two lines swapped, for the order-independence
claim. -/
def claudeFileDupPerm : ClaudeFile :=
  ⟨"proj",
   [some (mkClaudeLine "s1" "req-1" "2026-03-01T11:00:00Z" (.int 10) (.int 20) (.int 30) (.int 177)),
    some (mkClaudeLine "s1" "req-1" "2026-03-01T10:00:00Z" (.int 10) (.int 20) (.int 30) (.int 8))]⟩

/-- Concrete provider-B file whose `output_tokens` is the JSON boolean
`true`: Python's `isinstance(True, int)` holds, so `_safe_int` passes it
through and it contributes 1 token (not 0). -/
def claudeFileBool : ClaudeFile :=
  ⟨"proj",
   [some [("requestId", JVal.str "r1"), ("timestamp", JVal.str "2026-03-01T10:00:00Z"),
          ("sessionId", JVal.str "s1"),
          ("message", JVal.obj [("usage", JVal.obj [("output_tokens", JVal.bool true)])])]]⟩

/-- Concrete provider-B file with three requests on one date from two distinct
sessions. -/
def claudeFileSess : ClaudeFile :=
  ⟨"proj",
   [some (mkClaudeLine "s1" "ra" "2026-03-01T10:00:00Z" (.int 1) (.int 0) (.int 0) (.int 0)),
    some (mkClaudeLine "s1" "rb" "2026-03-01T11:00:00Z" (.int 2) (.int 0) (.int 0) (.int 0)),
    some (mkClaudeLine "s2" "rc" "2026-03-01T12:00:00Z" (.int 4) (.int 0) (.int 0) (.int 0))]⟩

/-- The `usage` object of a provider-B line that passes the line filter (the
same gate sequence as `extractLine`, returning the usage dict). -/
def usageOf (line : Option JObj) : Option JObj :=
  match line with
  | none => none
  | some ev =>
    match jfind ev "requestId" with
    | some (.str rid) =>
      if rid = "" then none
      else
        match parseTimestampLocal (jfind ev "timestamp") with
        | none => none
        | some _ =>
          match orEmptyObj (jfind ev "message") with
          | .obj mkvs =>
            match orEmptyObj (jfind mkvs "usage") with
            | .obj ukvs => some ukvs
            | _ => none
          | _ => none
    | _ => none

/-- Concrete provider mapping for the combiner example: 2 sessions and
300 tokens on 2026-01-05. -/
def combineExA : List (Date × DailyTotals) :=
  [(⟨2026, 1, 5⟩, ⟨⟨2026, 1, 5⟩, 2, 300⟩)]

/-- Concrete provider mapping for the combiner example: 3 sessions and
700 tokens on 2026-01-05. -/
def combineExB : List (Date × DailyTotals) :=
  [(⟨2026, 1, 5⟩, ⟨⟨2026, 1, 5⟩, 3, 700⟩)]

/-- A third provider mapping, on a different date, for the associativity
instance. -/
def combineExC : List (Date × DailyTotals) :=
  [(⟨2026, 1, 6⟩, ⟨⟨2026, 1, 6⟩, 1, 10⟩)]

/-! ## Generic association-list lemmas -/

section AListLemmas

variable {α β : Type} [DecidableEq α]

theorem afind_append (m l : List (α × β)) (a : α) :
    afind (m ++ l) a = ((afind m a).elim (afind l a) some) := by
  induction m with
  | nil => simp [afind]
  | cons p t ih =>
    obtain ⟨k, v⟩ := p
    by_cases h : k = a <;> simp [afind, h, ih]

theorem afind_cons (x : α) (w : β) (t : List (α × β)) (a : α) :
    afind ((x, w) :: t) a = if x = a then some w else afind t a := rfl

theorem afind_eq_none_iff (m : List (α × β)) (a : α) :
    afind m a = none ↔ a ∉ m.map Prod.fst := by
  induction m with
  | nil => simp [afind]
  | cons p t ih =>
    obtain ⟨k, v⟩ := p
    by_cases h : k = a
    · subst h; simp [afind_cons]
    · rw [afind_cons, if_neg h, ih, List.map_cons, List.mem_cons]
      constructor
      · exact fun hn hor => hor.elim (fun he => h he.symm) hn
      · exact fun hn hm2 => hn (Or.inr hm2)

theorem afind_mem {m : List (α × β)} {a : α} {v : β} (h : afind m a = some v) :
    (a, v) ∈ m := by
  induction m with
  | nil => simp [afind] at h
  | cons p t ih =>
    obtain ⟨k, w⟩ := p
    by_cases hk : k = a
    · subst hk
      rw [afind, if_pos rfl, Option.some.injEq] at h
      subst h; exact List.mem_cons_self _ _
    · rw [afind, if_neg hk] at h
      exact List.mem_cons_of_mem _ (ih h)

theorem afind_mapReplace (m : List (α × β)) (k : α) (g : β → β) (a : α) :
    afind (m.map (fun p => if p.1 = k then (p.1, g p.2) else p)) a =
      if a = k then (afind m k).map g else afind m a := by
  induction m with
  | nil => simp [afind]
  | cons p t ih =>
    obtain ⟨k', v⟩ := p
    rw [List.map_cons]
    rw [show (if (k', v).1 = k then ((k', v).1, g (k', v).2) else (k', v))
          = if k' = k then (k', g v) else (k', v) from rfl]
    by_cases hk : k' = k
    · subst hk
      rw [if_pos rfl]
      by_cases ha : k' = a
      · subst ha
        simp [afind_cons]
      · have ha' : ¬ a = k' := fun h => ha h.symm
        simp [afind_cons, ha, ha', ih]
    · rw [if_neg hk]
      by_cases ha : k' = a
      · subst ha
        simp [afind_cons, hk]
      · simp [afind_cons, hk, ha, ih]

/-- Lookup after a `setdefault`+mutate update. -/
theorem afind_aupd (m : List (α × β)) (k : α) (g : β → β) (v0 : β) (a : α) :
    afind (aupd m k g v0) a =
      if a = k then some ((afind m k).elim v0 g) else afind m a := by
  unfold aupd
  cases hm : afind m k with
  | none =>
    rw [afind_append]
    by_cases h : a = k
    · subst h; simp [hm, afind]
    · by_cases hmem : afind m a = none
      · simp [hmem, afind, h, Ne.symm h]
      · obtain ⟨v, hv⟩ := Option.ne_none_iff_exists'.mp hmem
        simp [hv, h]
  | some b =>
    rw [afind_mapReplace, hm]
    rfl

/-- Replace-in-place keeps the key list unchanged. -/
theorem keys_mapReplace (m : List (α × β)) (k : α) (g : β → β) :
    (m.map (fun p => if p.1 = k then (p.1, g p.2) else p)).map Prod.fst =
      m.map Prod.fst := by
  induction m with
  | nil => rfl
  | cons p t ih =>
    obtain ⟨k', v⟩ := p
    by_cases hk : k' = k <;> simp [hk, ih]

/-- `aupd` preserves key uniqueness. -/
theorem nodup_keys_aupd {m : List (α × β)} (h : (m.map Prod.fst).Nodup)
    (k : α) (g : β → β) (v0 : β) : ((aupd m k g v0).map Prod.fst).Nodup := by
  unfold aupd
  cases hm : afind m k with
  | none =>
    have hk : k ∉ m.map Prod.fst := (afind_eq_none_iff m k).mp hm
    have hsingle : (([(k, v0)] : List (α × β)).map Prod.fst) = [k] := rfl
    rw [List.map_append, hsingle]
    refine List.Nodup.append h (List.nodup_singleton k) ?_
    intro a ha hmem
    rw [List.mem_singleton] at hmem
    exact hk (hmem ▸ ha)
  | some b =>
    rw [keys_mapReplace]; exact h

end AListLemmas

/-! ## Generic option and list helpers -/

theorem optElim_getD {α β : Type} (o : Option α) (g : α → β) (i : α) :
    o.elim (g i) g = g (o.getD i) := by cases o <;> rfl

theorem getLast?_cons_elim {α : Type} (a : α) (l : List α) :
    (a :: l).getLast? = l.getLast?.elim (some a) some := by
  induction l generalizing a with
  | nil => rfl
  | cons b t ih =>
    rw [List.getLast?_cons_cons, ih b]
    cases h : t.getLast? <;> simp [ih, h]

/-! ## Provider-A lemmas -/

/-- Under crash-freedom, the `latest_total` fold returns the last valid
snapshot (or the accumulator when there is none). -/
theorem codexUsageFold_ok (lines : List (Option JObj))
    (h : ∀ l ∈ lines, snapLine l ≠ Except.error ()) (latest : Option Int) :
    codexUsageFold latest lines = .ok ((validSnaps lines).getLast?.elim latest some) := by
  induction lines generalizing latest with
  | nil => rfl
  | cons l ls ih =>
    have hl : snapLine l ≠ Except.error () := h l (List.mem_cons_self _ _)
    have hls : ∀ x ∈ ls, snapLine x ≠ Except.error () :=
      fun x hx => h x (List.mem_cons_of_mem _ hx)
    cases hsl : snapLine l with
    | error e => cases e; exact absurd hsl hl
    | ok o =>
      cases o with
      | none =>
        have hv : validSnaps (l :: ls) = validSnaps ls := by
          simp [validSnaps, List.filterMap_cons, hsl]
        rw [hv]
        simp only [codexUsageFold]
        rw [hsl]
        exact ih hls latest
      | some n =>
        have hv : validSnaps (l :: ls) = n :: validSnaps ls := by
          simp [validSnaps, List.filterMap_cons, hsl]
        rw [hv, getLast?_cons_elim]
        simp only [codexUsageFold]
        rw [hsl]
        show codexUsageFold (some n) ls = _
        rw [ih hls (some n)]
        cases hvv : (validSnaps ls).getLast? <;> rfl

/-- Under crash-freedom, `_parse_codex_session_usage` returns exactly the last
valid snapshot value of the file, `none` when the file has no valid snapshot. -/
theorem parseCodex_getLast (lines : List (Option JObj))
    (h : ∀ l ∈ lines, snapLine l ≠ Except.error ()) :
    parseCodexSessionUsage lines = .ok (validSnaps lines).getLast? := by
  rw [parseCodexSessionUsage, codexUsageFold_ok lines h none]
  cases (validSnaps lines).getLast? <;> rfl

/-- Lookup after a provider-A per-file bump. -/
theorem afind_codexBump (totals : List (Date × DailyTotals)) (d0 : Date) (v : Int)
    (a : Date) :
    afind (codexBump totals d0 v) a =
      if a = d0 then
        some { date := ((afind totals d0).getD ⟨d0, 0, 0⟩).date
               sessions := ((afind totals d0).getD ⟨d0, 0, 0⟩).sessions + 1
               total_tokens := ((afind totals d0).getD ⟨d0, 0, 0⟩).total_tokens + v }
      else afind totals a := by
  rw [codexBump, afind_aupd]
  cases h : afind totals d0 <;> simp [h]

/-- The collection fold of provider A, characterized under crash-freedom: the
resulting mapping at each date accumulates one session and the last-snapshot
value per contributing file. -/
theorem codexCollectFold_char (fs : List CodexFile)
    (hc : ∀ f ∈ fs, ∀ l ∈ f.lines, snapLine l ≠ Except.error ())
    (acc : List (Date × DailyTotals)) :
    ∃ m, codexCollectFold acc fs = .ok m ∧ ∀ d : Date,
      afind m d =
        if ((codexContribs fs).filter (fun p => p.1 = d)).isEmpty then afind acc d
        else
          some { date := ((afind acc d).getD ⟨d, 0, 0⟩).date
                 sessions := ((afind acc d).getD ⟨d, 0, 0⟩).sessions +
                   (((codexContribs fs).filter (fun p => p.1 = d)).length : Int)
                 total_tokens := ((afind acc d).getD ⟨d, 0, 0⟩).total_tokens +
                   ((((codexContribs fs).filter (fun p => p.1 = d)).map (fun p => p.2)).sum) } := by
  induction fs generalizing acc with
  | nil =>
    refine ⟨acc, rfl, fun d => ?_⟩
    simp [codexContribs]
  | cons f fs ih =>
    have hcf : ∀ l ∈ f.lines, snapLine l ≠ Except.error () := hc f (List.mem_cons_self _ _)
    have hcs : ∀ g ∈ fs, ∀ l ∈ g.lines, snapLine l ≠ Except.error () :=
      fun g hg => hc g (List.mem_cons_of_mem _ hg)
    cases hdate : codexFileDate? f with
    | none =>
      have hctr : codexContribs (f :: fs) = codexContribs fs := by
        simp [codexContribs, List.filterMap_cons, hdate]
      obtain ⟨m, hm, hfind⟩ := ih hcs acc
      refine ⟨m, ?_, fun d => by rw [hctr]; exact hfind d⟩
      simp only [codexCollectFold]
      rw [hdate]
      exact hm
    | some d0 =>
      have hparse : parseCodexSessionUsage f.lines = .ok (validSnaps f.lines).getLast? :=
        parseCodex_getLast f.lines hcf
      cases hlast : (validSnaps f.lines).getLast? with
      | none =>
        have hctr : codexContribs (f :: fs) = codexContribs fs := by
          simp [codexContribs, List.filterMap_cons, hdate, hlast]
        obtain ⟨m, hm, hfind⟩ := ih hcs acc
        refine ⟨m, ?_, fun d => by rw [hctr]; exact hfind d⟩
        simp only [codexCollectFold]
        rw [hdate, hparse, hlast]
        exact hm
      | some v =>
        have hctr : codexContribs (f :: fs) = (d0, v) :: codexContribs fs := by
          simp [codexContribs, List.filterMap_cons, hdate, hlast]
        obtain ⟨m, hm, hfind⟩ := ih hcs (codexBump acc d0 v)
        refine ⟨m, ?_, ?_⟩
        · simp only [codexCollectFold]
          rw [hdate, hparse, hlast]
          exact hm
        · intro d
          rw [hfind d, hctr, afind_codexBump]
          by_cases hd : d = d0
          · subst hd
            rw [if_pos rfl, List.filter_cons_of_pos (by simp)]
            by_cases hrest : ((codexContribs fs).filter (fun p => p.1 = d)).isEmpty
            · have hre : (codexContribs fs).filter (fun p => p.1 = d) = [] :=
                List.isEmpty_iff.mp hrest
              rw [if_pos hrest, hre]
              rw [if_neg (by simp)]
              simp only [List.length_cons, List.length_nil, List.map_cons, List.map_nil,
                List.sum_cons, List.sum_nil]
              congr 1
              congr 1
              all_goals omega
            · rw [if_neg hrest, if_neg (by simp)]
              simp only [Option.getD_some, List.length_cons, List.map_cons, List.sum_cons]
              congr 1
              congr 1
              all_goals omega
          · have hdd : ¬ (d0 = d) := fun h => hd h.symm
            rw [if_neg hd, List.filter_cons_of_neg (by simpa using hdd)]

/-- C2, positive part under crash-freedom: per file, the parse value is the
last valid snapshot, and collection satisfies the per-date characterization. -/
theorem claim_C2 (fs : List CodexFile)
    (hc : ∀ f ∈ fs, ∀ l ∈ f.lines, snapLine l ≠ Except.error ()) :
    (∀ f ∈ fs, parseCodexSessionUsage f.lines = .ok (validSnaps f.lines).getLast?) ∧
    ∃ m, collectCodexDailyTotals (some fs) = .ok m ∧ codexChar fs m := by
  refine ⟨fun f hf => parseCodex_getLast f.lines (hc f hf), ?_⟩
  obtain ⟨m, hm, hfind⟩ := codexCollectFold_char fs hc []
  refine ⟨m, hm, fun d => ?_⟩
  rw [hfind d]
  by_cases h : ((codexContribs fs).filter (fun p => p.1 = d)).isEmpty
  · rw [if_pos h, if_pos h]; rfl
  · rw [if_neg h, if_neg h]
    congr 1
    show DailyTotals.mk _ _ _ = DailyTotals.mk _ _ _
    congr 1
    all_goals simp [afind]

/-- Witness for C2: the file with snapshots 250 then 100 contributes one
session and 100 tokens — the last snapshot, not the maximum and not the sum. -/
theorem claim_C2_witness :
    ((∀ f ∈ [codexFileA], parseCodexSessionUsage f.lines = .ok (validSnaps f.lines).getLast?) ∧
      ∃ m, collectCodexDailyTotals (some [codexFileA]) = .ok m ∧ codexChar [codexFileA] m) ∧
    collectCodexDailyTotals (some [codexFileA]) =
      .ok [(⟨2026, 2, 27⟩, ⟨⟨2026, 2, 27⟩, 1, 100⟩)] :=
  ⟨claim_C2 [codexFileA] (by decide), rfl⟩

/-- C2 counterexample: a file on a valid path with a valid snapshot (value
100) plus one further line whose `payload` is a truthy non-dict.  The claim
says such a file contributes `(sessions 1, tokens 100)`; the code instead
raises an uncaught `AttributeError`, so the collection returns no mapping at
all. -/
theorem claim_C2_counterexample :
    codexFileDate? codexCrashFile = some ⟨2026, 2, 27⟩ ∧
    (validSnaps codexCrashFile.lines).getLast? = some 100 ∧
    collectCodexDailyTotals (some [codexCrashFile]) = .error () ∧
    ¬ ∃ m, collectCodexDailyTotals (some [codexCrashFile]) = .ok m ∧
        codexChar [codexCrashFile] m := by
  refine ⟨rfl, rfl, rfl, ?_⟩
  rintro ⟨m, hm, -⟩
  rw [show collectCodexDailyTotals (some [codexCrashFile]) = .error () from rfl] at hm
  exact Except.noConfusion hm

/-! ## Entry-membership lemmas for the non-negativity claim -/

theorem mem_aupd {α β : Type} [DecidableEq α] {m : List (α × β)} {k : α} {g : β → β}
    {v0 : β} {p : α × β} (h : p ∈ aupd m k g v0) :
    p ∈ m ∨ (∃ q ∈ m, p = (q.1, g q.2)) ∨ p = (k, v0) := by
  unfold aupd at h
  cases hm : afind m k with
  | none =>
    rw [hm] at h
    rcases List.mem_append.mp h with h1 | h1
    · exact Or.inl h1
    · right; right; simpa using h1
  | some b =>
    rw [hm] at h
    rcases List.mem_map.mp h with ⟨q, hq, hv⟩
    by_cases hk : q.1 = k
    · right; left; exact ⟨q, hq, by rw [← hv]; simp [hk]⟩
    · left
      rw [← hv]
      simpa [hk] using hq

theorem validSnaps_cons_some {l : Option JObj} (ls : List (Option JObj)) {n : Int}
    (h : snapLine l = .ok (some n)) : validSnaps (l :: ls) = n :: validSnaps ls := by
  simp [validSnaps, List.filterMap_cons, h]

theorem validSnaps_cons_skip {l : Option JObj} (ls : List (Option JObj))
    (h : snapLine l = .ok none) : validSnaps (l :: ls) = validSnaps ls := by
  simp [validSnaps, List.filterMap_cons, h]

/-- Any value the usage fold returns is the accumulator or a valid snapshot of
the file. -/
theorem codexUsageFold_mem (lines : List (Option JObj)) :
    ∀ latest r, codexUsageFold latest lines = .ok r →
      r = latest ∨ ∃ n, r = some n ∧ n ∈ validSnaps lines := by
  induction lines with
  | nil =>
    intro latest r h
    exact Or.inl (Except.ok.inj h).symm
  | cons l ls ih =>
    intro latest r h
    simp only [codexUsageFold] at h
    cases hsl : snapLine l with
    | error e => rw [hsl] at h; exact absurd h (by simp)
    | ok o =>
      rw [hsl] at h
      cases o with
      | none =>
        rcases ih latest r h with h1 | ⟨n, hn, hmem⟩
        · exact Or.inl h1
        · exact Or.inr ⟨n, hn, by rw [validSnaps_cons_skip ls hsl]; exact hmem⟩
      | some n0 =>
        rcases ih (some n0) r h with h1 | ⟨n, hn, hmem⟩
        · exact Or.inr ⟨n0, h1, by rw [validSnaps_cons_some ls hsl]; exact List.mem_cons_self _ _⟩
        · exact Or.inr ⟨n, hn, by rw [validSnaps_cons_some ls hsl]; exact List.mem_cons_of_mem _ hmem⟩

/-- Sessions stay non-negative through the provider-A collection fold. -/
theorem codexFold_nonneg_sessions (fs : List CodexFile) :
    ∀ acc m, codexCollectFold acc fs = .ok m →
      (∀ p ∈ acc, 0 ≤ p.2.sessions) → ∀ p ∈ m, 0 ≤ p.2.sessions := by
  induction fs with
  | nil =>
    intro acc m hm hacc
    cases Except.ok.inj hm
    exact hacc
  | cons f fs ih =>
    intro acc m hm hacc
    simp only [codexCollectFold] at hm
    cases hdate : codexFileDate? f with
    | none => rw [hdate] at hm; exact ih acc m hm hacc
    | some d0 =>
      rw [hdate] at hm
      cases hp : parseCodexSessionUsage f.lines with
      | error e => rw [hp] at hm; exact absurd hm (by simp)
      | ok o =>
        rw [hp] at hm
        cases o with
        | none => exact ih acc m hm hacc
        | some v =>
          refine ih _ m hm ?_
          intro p hp2
          rcases mem_aupd (by simpa [codexBump] using hp2) with h1 | ⟨q, hq, hq2⟩ | h1
          · exact hacc p h1
          · have := hacc q hq
            rw [hq2]; simp; omega
          · rw [h1]; simp

/-- Total tokens stay non-negative through the provider-A collection fold,
provided every valid snapshot value in the inputs is non-negative. -/
theorem codexFold_nonneg_tokens (fs : List CodexFile)
    (hnn : ∀ f ∈ fs, ∀ v ∈ validSnaps f.lines, 0 ≤ v) :
    ∀ acc m, codexCollectFold acc fs = .ok m →
      (∀ p ∈ acc, 0 ≤ p.2.total_tokens) → ∀ p ∈ m, 0 ≤ p.2.total_tokens := by
  induction fs with
  | nil =>
    intro acc m hm hacc
    cases Except.ok.inj hm
    exact hacc
  | cons f fs ih =>
    have hnn1 : ∀ v ∈ validSnaps f.lines, 0 ≤ v := hnn f (List.mem_cons_self _ _)
    have hnns : ∀ g ∈ fs, ∀ v ∈ validSnaps g.lines, 0 ≤ v :=
      fun g hg => hnn g (List.mem_cons_of_mem _ hg)
    intro acc m hm hacc
    simp only [codexCollectFold] at hm
    cases hdate : codexFileDate? f with
    | none => rw [hdate] at hm; exact ih hnns acc m hm hacc
    | some d0 =>
      rw [hdate] at hm
      cases hp : parseCodexSessionUsage f.lines with
      | error e => rw [hp] at hm; exact absurd hm (by simp)
      | ok o =>
        rw [hp] at hm
        cases o with
        | none => exact ih hnns acc m hm hacc
        | some v =>
          have hv : 0 ≤ v := by
            rcases codexUsageFold_mem f.lines none (some v) hp with h1 | ⟨n, hn, hmem⟩
            · exact absurd h1 (by simp)
            · cases Option.some.inj hn; exact hnn1 _ hmem
          refine ih hnns _ m hm ?_
          intro p hp2
          rcases mem_aupd (by simpa [codexBump] using hp2) with h1 | ⟨q, hq, hq2⟩ | h1
          · exact hacc p h1
          · have := hacc q hq
            rw [hq2]; simp; omega
          · rw [h1]; simp; omega

theorem mem_applySessStep {totals : List (Date × DailyTotals)} {x : Date × List String}
    {p : Date × DailyTotals} (h : p ∈ applySessStep totals x) :
    p ∈ totals ∨ ∃ q ∈ totals, p = (q.1, setSessions (x.2.length : Int) q.2) := by
  unfold applySessStep at h
  by_cases hs : (afind totals x.1).isSome
  · rw [if_pos hs] at h
    rcases List.mem_map.mp h with ⟨q, hq, hv⟩
    by_cases hk : q.1 = x.1
    · right; exact ⟨q, hq, by rw [← hv]; simp [hk]⟩
    · left
      rw [← hv]
      simpa [hk] using hq
  · rw [if_neg hs] at h; exact Or.inl h

/-- Both fields stay non-negative through the provider-B bucketing fold. -/
theorem bucketFold_nonneg (tz : Int → Int) (vals : List MergedRec) :
    ∀ acc : List (Date × DailyTotals) × List (Date × List String),
      (∀ p ∈ acc.1, 0 ≤ p.2.sessions ∧ 0 ≤ p.2.total_tokens) →
      ∀ p ∈ (vals.foldl (bucketStep tz) acc).1, 0 ≤ p.2.sessions ∧ 0 ≤ p.2.total_tokens := by
  induction vals with
  | nil => intro acc h; exact h
  | cons r vs ih =>
    intro acc h
    rw [List.foldl_cons]
    refine ih _ ?_
    intro p hp
    rcases mem_aupd (by simpa [bucketStep] using hp) with h1 | ⟨q, hq, hq2⟩ | h1
    · exact h p h1
    · rcases h q hq with ⟨hs, ht⟩
      rw [hq2]
      refine ⟨by simpa using hs, ?_⟩
      dsimp only
      omega
    · rw [h1]
      refine ⟨by simp, ?_⟩
      dsimp only
      omega

/-- Both fields stay non-negative through the final session pass. -/
theorem applySessFold_nonneg (ss : List (Date × List String)) :
    ∀ totals, (∀ p ∈ totals, 0 ≤ p.2.sessions ∧ 0 ≤ p.2.total_tokens) →
      ∀ p ∈ ss.foldl applySessStep totals, 0 ≤ p.2.sessions ∧ 0 ≤ p.2.total_tokens := by
  induction ss with
  | nil => intro totals h; exact h
  | cons x xs ih =>
    intro totals h
    rw [List.foldl_cons]
    refine ih _ ?_
    intro p hp
    rcases mem_applySessStep hp with h1 | ⟨q, hq, hq2⟩
    · exact h p h1
    · rcases h q hq with ⟨hs, ht⟩
      rw [hq2]
      refine ⟨?_, by simpa [setSessions] using ht⟩
      simp [setSessions]

/-- Every entry the provider-B parser produces has non-negative fields. -/
theorem claudeTotals_nonneg (tz : Int → Int) (vals : List MergedRec) :
    ∀ p ∈ claudeTotalsOf tz vals, 0 ≤ p.2.sessions ∧ 0 ≤ p.2.total_tokens := by
  unfold claudeTotalsOf
  exact applySessFold_nonneg _ _ (bucketFold_nonneg tz vals ([], []) (by simp))

/-- Both fields stay non-negative through one combining step, given the
provider's entries are non-negative. -/
theorem combineStep_nonneg (mi : List (Date × DailyTotals))
    (hmi : ∀ q ∈ mi, 0 ≤ q.2.sessions ∧ 0 ≤ q.2.total_tokens) :
    ∀ c, (∀ p ∈ c, 0 ≤ p.2.sessions ∧ 0 ≤ p.2.total_tokens) →
      ∀ p ∈ combineStep c mi, 0 ≤ p.2.sessions ∧ 0 ≤ p.2.total_tokens := by
  induction mi with
  | nil => intro c h; exact h
  | cons x xs ih =>
    have hx := hmi x (List.mem_cons_self _ _)
    have hxs : ∀ q ∈ xs, 0 ≤ q.2.sessions ∧ 0 ≤ q.2.total_tokens :=
      fun q hq => hmi q (List.mem_cons_of_mem _ hq)
    intro c h
    rw [combineStep, List.foldl_cons]
    refine ih hxs _ ?_
    intro p hp
    rcases mem_aupd hp with h1 | ⟨q, hq, hq2⟩ | h1
    · exact h p h1
    · rcases h q hq with ⟨hs, ht⟩
      rw [hq2]
      refine ⟨?_, ?_⟩ <;> dsimp only <;> omega
    · rw [h1]
      refine ⟨?_, ?_⟩ <;> dsimp only <;> omega

/-- Every entry the combiner produces has non-negative fields, given every
input mapping's entries do. -/
theorem combineFold_nonneg (ms : List (List (Date × DailyTotals)))
    (h : ∀ mi ∈ ms, ∀ q ∈ mi, 0 ≤ q.2.sessions ∧ 0 ≤ q.2.total_tokens) :
    ∀ p ∈ combineDailyTotals ms, 0 ≤ p.2.sessions ∧ 0 ≤ p.2.total_tokens := by
  rw [combineDailyTotals]
  have : ∀ acc, (∀ p ∈ acc, 0 ≤ p.2.sessions ∧ 0 ≤ p.2.total_tokens) →
      ∀ p ∈ ms.foldl combineStep acc, 0 ≤ p.2.sessions ∧ 0 ≤ p.2.total_tokens := by
    induction ms with
    | nil => intro acc hacc; exact hacc
    | cons x xs ih =>
      intro acc hacc
      rw [List.foldl_cons]
      exact ih (fun mi hmi => h mi (List.mem_cons_of_mem _ hmi)) _
        (combineStep_nonneg x (h x (List.mem_cons_self _ _)) acc hacc)
  exact this [] (by simp)

/-- C3 (amended): sessions are non-negative in every entry of all three
producers; total_tokens is unconditionally non-negative for the provider-B
parser, and non-negative for the provider-A parser and the combiner provided
every valid provider-A snapshot value is non-negative (the provider-A parser
accepts any `isinstance(..., int)` total, negative ones included). -/
theorem claim_C3 (fs : List CodexFile) (m : List (Date × DailyTotals))
    (tz : Int → Int) (cfs : List ClaudeFile) (ms : List (List (Date × DailyTotals)))
    (hok : collectCodexDailyTotals (some fs) = .ok m) :
    (∀ p ∈ m, 0 ≤ p.2.sessions) ∧
    ((∀ f ∈ fs, ∀ v ∈ validSnaps f.lines, 0 ≤ v) → ∀ p ∈ m, 0 ≤ p.2.total_tokens) ∧
    (∀ p ∈ collectClaudeDailyTotals tz (some cfs), 0 ≤ p.2.sessions ∧ 0 ≤ p.2.total_tokens) ∧
    ((∀ mi ∈ ms, ∀ q ∈ mi, 0 ≤ q.2.sessions ∧ 0 ≤ q.2.total_tokens) →
      ∀ p ∈ combineDailyTotals ms, 0 ≤ p.2.sessions ∧ 0 ≤ p.2.total_tokens) := by
  have hfold : codexCollectFold [] fs = .ok m := hok
  refine ⟨codexFold_nonneg_sessions fs [] m hfold (by simp), ?_, ?_, ?_⟩
  · intro hnn
    exact codexFold_nonneg_tokens fs hnn [] m hfold (by simp)
  · intro p hp
    exact claudeTotals_nonneg tz _ p hp
  · intro hms
    exact combineFold_nonneg ms hms

/-- C3 counterexample: a provider-A file with a single snapshot whose total is
the integer -5 passes the `isinstance(total, int)` check, so that date's
entry has `total_tokens = -5 < 0`, refuting the unconditional non-negativity
of `total_tokens`. -/
theorem claim_C3_counterexample :
    collectCodexDailyTotals (some [codexNegFile]) =
      .ok [(⟨2026, 2, 27⟩, ⟨⟨2026, 2, 27⟩, 1, -5⟩)] ∧
    ¬ ∀ m, collectCodexDailyTotals (some [codexNegFile]) = .ok m →
        ∀ p ∈ m, 0 ≤ p.2.total_tokens := by
  have heval : collectCodexDailyTotals (some [codexNegFile]) =
      .ok [(⟨2026, 2, 27⟩, ⟨⟨2026, 2, 27⟩, 1, -5⟩)] := rfl
  refine ⟨heval, fun h => ?_⟩
  have hmem := h [(⟨2026, 2, 27⟩, ⟨⟨2026, 2, 27⟩, 1, -5⟩)] heval
    (⟨2026, 2, 27⟩, ⟨⟨2026, 2, 27⟩, 1, -5⟩) (List.mem_singleton.mpr rfl)
  exact absurd hmem (by decide)

/-- Witness for C3 at concrete inputs. -/
theorem claim_C3_witness :
    (∀ p ∈ ([(⟨2026, 2, 27⟩, ⟨⟨2026, 2, 27⟩, 1, 100⟩)] : List (Date × DailyTotals)),
        0 ≤ p.2.sessions) ∧
    ((∀ f ∈ [codexFileA], ∀ v ∈ validSnaps f.lines, 0 ≤ v) →
      ∀ p ∈ ([(⟨2026, 2, 27⟩, ⟨⟨2026, 2, 27⟩, 1, 100⟩)] : List (Date × DailyTotals)),
        0 ≤ p.2.total_tokens) ∧
    (∀ p ∈ collectClaudeDailyTotals (fun _ => 0) (some []),
        0 ≤ p.2.sessions ∧ 0 ≤ p.2.total_tokens) ∧
    ((∀ mi ∈ ([[(⟨2026, 2, 27⟩, ⟨⟨2026, 2, 27⟩, 1, 100⟩)]] :
          List (List (Date × DailyTotals))),
        ∀ q ∈ mi, 0 ≤ q.2.sessions ∧ 0 ≤ q.2.total_tokens) →
      ∀ p ∈ combineDailyTotals
          ([[(⟨2026, 2, 27⟩, ⟨⟨2026, 2, 27⟩, 1, 100⟩)]] : List (List (Date × DailyTotals))),
        0 ≤ p.2.sessions ∧ 0 ≤ p.2.total_tokens) :=
  claim_C3 [codexFileA] [(⟨2026, 2, 27⟩, ⟨⟨2026, 2, 27⟩, 1, 100⟩)] (fun _ => 0) []
    [[(⟨2026, 2, 27⟩, ⟨⟨2026, 2, 27⟩, 1, 100⟩)]] (by rfl)

/-! ## Range summarizer and missing-root claims -/

/-- C10: for every daily mapping and every inverted range (`to_date <
from_date`), `_sum_range` returns exactly `(0, 0)`. -/
theorem claim_C10 (daily : List (Date × DailyTotals)) (from_date to_date : Date)
    (h : dateLt to_date from_date = true) :
    sumRange daily from_date to_date = (0, 0) := by
  rw [sumRange, if_pos h]

/-- Witness for C10: an inverted one-day range over a non-empty mapping. -/
theorem claim_C10_witness :
    dateLt ⟨2026, 1, 1⟩ ⟨2026, 1, 2⟩ = true ∧
    sumRange [(⟨2026, 1, 3⟩, ⟨⟨2026, 1, 3⟩, 2, 50⟩)] ⟨2026, 1, 2⟩ ⟨2026, 1, 1⟩ = (0, 0) :=
  ⟨by decide, claim_C10 [(⟨2026, 1, 3⟩, ⟨⟨2026, 1, 3⟩, 2, 50⟩)] ⟨2026, 1, 2⟩ ⟨2026, 1, 1⟩
    (by decide)⟩

/-- C9: a missing root yields an empty mapping for either provider (and, for
provider A, an `.ok` result — no exception); combining and summarizing the
resulting empty mappings is well-defined and all-zero. -/
theorem claim_C9 (tz : Int → Int) :
    collectCodexDailyTotals none = .ok [] ∧
    collectClaudeDailyTotals tz none = [] ∧
    combineDailyTotals [[], []] = [] ∧
    summaryFromDaily (combineDailyTotals [[], []]) =
      { ytd_total_tokens := 0, days_with_usage := 0, sessions := 0, highest_single_day := 0 } ∧
    sumRange (combineDailyTotals [[], []]) ⟨2026, 1, 1⟩ ⟨2026, 12, 31⟩ = (0, 0) :=
  ⟨rfl, rfl, rfl, rfl, rfl⟩

/-- Witness for C9 at a concrete timezone. -/
theorem claim_C9_witness :
    collectCodexDailyTotals none = .ok [] ∧
    collectClaudeDailyTotals (fun _ => 0) none = [] ∧
    combineDailyTotals [[], []] = [] ∧
    summaryFromDaily (combineDailyTotals [[], []]) =
      { ytd_total_tokens := 0, days_with_usage := 0, sessions := 0, highest_single_day := 0 } ∧
    sumRange (combineDailyTotals [[], []]) ⟨2026, 1, 1⟩ ⟨2026, 12, 31⟩ = (0, 0) :=
  claim_C9 (fun _ => 0)

/-! ## Timestamp lemmas -/

theorem dropWhile_eq_self_of_nows {l : List Char} (h : ∀ c ∈ l, isPySpace c = false) :
    l.dropWhile isPySpace = l := by
  cases l with
  | nil => rfl
  | cons a t =>
    rw [List.dropWhile_cons, h a (List.mem_cons_self _ _)]
    rfl

theorem pyStrip_of_nows {l : List Char} (h : ∀ c ∈ l, isPySpace c = false) :
    pyStrip l = l := by
  unfold pyStrip
  rw [dropWhile_eq_self_of_nows h,
    dropWhile_eq_self_of_nows (fun c hc => h c (List.mem_reverse.mp hc)), List.reverse_reverse]

/-- The `Z` rewrite on a whitespace-free string: a trailing `Z` becomes
`+00:00`, and a `+00:00`-suffixed string is untouched. -/
theorem tsInstant_z_eq (s : List Char) (h : ∀ c ∈ s, isPySpace c = false) :
    tsInstant? (s ++ ['Z']) = tsInstant? (s ++ ("+00:00".data)) := by
  have h1 : ∀ c ∈ s ++ ['Z'], isPySpace c = false := by
    intro c hc
    rcases List.mem_append.mp hc with hc | hc
    · exact h c hc
    · rw [List.mem_singleton] at hc; subst hc; rfl
  have h2 : ∀ c ∈ s ++ ("+00:00".data), isPySpace c = false := by
    intro c hc
    rcases List.mem_append.mp hc with hc | hc
    · exact h c hc
    · rw [show ("+00:00".data) = ['+', '0', '0', ':', '0', '0'] from rfl] at hc
      simp only [List.mem_cons, List.not_mem_nil, or_false] at hc
      rcases hc with rfl | rfl | rfl | rfl | rfl | rfl <;> rfl
  have hz1 : normZ (s ++ ['Z']) = s ++ ("+00:00".data) := by
    unfold normZ
    rw [List.getLast?_concat, if_pos rfl, List.dropLast_concat]
  have hz2 : normZ (s ++ ("+00:00".data)) = s ++ ("+00:00".data) := by
    have hlast : (s ++ ("+00:00".data)).getLast? = some '0' := by
      rw [show s ++ ("+00:00".data) = (s ++ ['+', '0', '0', ':', '0']) ++ ['0'] by simp]
      exact List.getLast?_concat _
    unfold normZ
    rw [hlast, if_neg (by decide)]
  rw [tsInstant?, tsInstant?, pyStrip_of_nows h1, pyStrip_of_nows h2, hz1, hz2]

/-- A parse with no offset is resolved exactly like the same civil fields with
an explicit `+00:00` offset. -/
theorem tsInstant_naive_utc (s1 s2 : List Char) (r : IsoDT) (hoff : r.offset = none)
    (h1 : fromIso (normZ (pyStrip s1)) = some r)
    (h2 : fromIso (normZ (pyStrip s2)) = some { r with offset := some 0 }) :
    tsInstant? s1 = tsInstant? s2 := by
  rw [tsInstant?, tsInstant?, h1, h2]
  simp [isoInstant, hoff]

/-- C5: a trailing literal `Z` is interpreted exactly like `+00:00`; a
timestamp with no offset is assumed UTC; and the record is bucketed by the
local calendar date of the instant — `2026-01-02T00:30:00Z` lands on
2026-01-01 under a UTC-60min local timezone and on 2026-01-02 under UTC and
UTC+330min, end to end through the provider-B parser. -/
theorem claim_C5 (s : List Char) (hs : ∀ c ∈ s, isPySpace c = false)
    (s1 s2 : List Char) (r : IsoDT) (hoff : r.offset = none)
    (h1 : fromIso (normZ (pyStrip s1)) = some r)
    (h2 : fromIso (normZ (pyStrip s2)) = some { r with offset := some 0 }) :
    tsInstant? (s ++ ['Z']) = tsInstant? (s ++ ("+00:00".data)) ∧
    tsInstant? s1 = tsInstant? s2 ∧
    parseTimestampLocal (some (.str "2026-01-02T00:30:00Z")) = some 1767313800 ∧
    dateOfInstant (fun _ => -60) 1767313800 = ⟨2026, 1, 1⟩ ∧
    dateOfInstant (fun _ => 0) 1767313800 = ⟨2026, 1, 2⟩ ∧
    collectClaudeDailyTotals (fun _ => -60) (some [claudeFileZ]) =
      [(⟨2026, 1, 1⟩, ⟨⟨2026, 1, 1⟩, 1, 7⟩)] ∧
    collectClaudeDailyTotals (fun _ => 330) (some [claudeFileZ]) =
      [(⟨2026, 1, 2⟩, ⟨⟨2026, 1, 2⟩, 1, 7⟩)] :=
  ⟨tsInstant_z_eq s hs, tsInstant_naive_utc s1 s2 r hoff h1 h2, by decide, by decide, by decide,
    by decide, by decide⟩

/-- Witness for C5 at the concrete timestamp of the claim. -/
theorem claim_C5_witness :
    (tsInstant? ("2026-01-02T00:30:00".data ++ ['Z']) =
      tsInstant? ("2026-01-02T00:30:00".data ++ ("+00:00".data)) ∧
    tsInstant? ("2026-01-02T00:30:00".data) = tsInstant? ("2026-01-02T00:30:00+00:00".data) ∧
    parseTimestampLocal (some (.str "2026-01-02T00:30:00Z")) = some 1767313800 ∧
    dateOfInstant (fun _ => -60) 1767313800 = ⟨2026, 1, 1⟩ ∧
    dateOfInstant (fun _ => 0) 1767313800 = ⟨2026, 1, 2⟩ ∧
    collectClaudeDailyTotals (fun _ => -60) (some [claudeFileZ]) =
      [(⟨2026, 1, 1⟩, ⟨⟨2026, 1, 1⟩, 1, 7⟩)] ∧
    collectClaudeDailyTotals (fun _ => 330) (some [claudeFileZ]) =
      [(⟨2026, 1, 2⟩, ⟨⟨2026, 1, 2⟩, 1, 7⟩)]) :=
  claim_C5 ("2026-01-02T00:30:00".data) (by decide)
    ("2026-01-02T00:30:00".data) ("2026-01-02T00:30:00+00:00".data)
    ⟨2026, 1, 2, 0, 30, 0, none⟩ rfl (by decide) (by decide)

/-! ## Provider-B merge lemmas -/

theorem afind_updKey (m : List ((String × String) × MergedRec)) (o : Obs)
    (k : String × String) :
    afind (updKey m o) k =
      if k = obsKey o then
        some ((afind m (obsKey o)).elim (obsRec o) (fun r => mergeRec r o))
      else afind m k := by
  rw [updKey, afind_aupd]

/-- The fully folded `request_usage` lookup is the per-key merge of exactly
the observations carrying that key, in reading order. -/
theorem claudeMergeFold_afind (obs : List Obs) :
    ∀ m k, afind (obs.foldl updKey m) k =
      mergeFoldOpt (afind m k) (obs.filter (fun o => obsKey o = k)) := by
  induction obs with
  | nil => intro m k; rfl
  | cons o os ih =>
    intro m k
    rw [List.foldl_cons, ih, List.filter_cons]
    by_cases hk : obsKey o = k
    · rw [if_pos (by simp [hk])]
      simp only [mergeFoldOpt, List.foldl_cons]
      congr 1
      rw [afind_updKey, if_pos hk.symm, ← hk]
      cases afind m (obsKey o) <;> rfl
    · rw [if_neg (by simp [hk])]
      congr 1
      rw [afind_updKey, if_neg (fun h => hk h.symm)]

/-- The structure of a fold of `mergeRec`: the stored session id with the
field-wise maxima. -/
theorem mergeRec_foldl (os : List Obs) :
    ∀ r0 : MergedRec, os.foldl mergeRec r0 =
      { sessionId := r0.sessionId
        ts := os.foldl (fun a o => max a o.ts) r0.ts
        input_tokens := os.foldl (fun a o => max a o.input_tokens) r0.input_tokens
        cache_creation_input_tokens :=
          os.foldl (fun a o => max a o.cache_creation_input_tokens)
            r0.cache_creation_input_tokens
        cache_read_input_tokens :=
          os.foldl (fun a o => max a o.cache_read_input_tokens) r0.cache_read_input_tokens
        output_tokens := os.foldl (fun a o => max a o.output_tokens) r0.output_tokens } := by
  induction os with
  | nil => intro r0; rfl
  | cons o os ih => intro r0; rw [List.foldl_cons, ih]; rfl

theorem mergeFoldOpt_some (os : List Obs) :
    ∀ r : MergedRec, mergeFoldOpt (some r) os = some (os.foldl mergeRec r) := by
  induction os with
  | nil => intro r; rfl
  | cons x xs ih => intro r; simp only [mergeFoldOpt, List.foldl_cons] at ih ⊢; exact ih _

theorem mergeFoldOpt_cons (o : Obs) (os : List Obs) :
    mergeFoldOpt none (o :: os) = some (os.foldl mergeRec (obsRec o)) := by
  simp only [mergeFoldOpt, List.foldl_cons]
  exact mergeFoldOpt_some os (obsRec o)

theorem claudeMerge_keys_nodup (obs : List Obs) :
    ∀ m : List ((String × String) × MergedRec), (m.map Prod.fst).Nodup →
      ((obs.foldl updKey m).map Prod.fst).Nodup := by
  induction obs with
  | nil => intro m h; exact h
  | cons o os ih =>
    intro m h
    rw [List.foldl_cons]
    exact ih _ (nodup_keys_aupd h _ _ _)

/-! ## Association lists with equal lookups and unique keys are permutations -/

theorem afind_split {α β : Type} [DecidableEq α] {m : List (α × β)} {k : α} {v : β}
    (h : afind m k = some v) :
    ∃ l1 l2, m = l1 ++ (k, v) :: l2 ∧ ∀ p ∈ l1, p.1 ≠ k := by
  induction m with
  | nil => simp [afind] at h
  | cons q t ih =>
    obtain ⟨k', w⟩ := q
    by_cases hk : k' = k
    · subst hk
      rw [afind_cons, if_pos rfl, Option.some.injEq] at h
      subst h
      exact ⟨[], t, rfl, by simp⟩
    · rw [afind_cons, if_neg hk] at h
      obtain ⟨l1, l2, heq, hl1⟩ := ih h
      refine ⟨(k', w) :: l1, l2, by rw [heq]; rfl, ?_⟩
      intro p hp
      rcases List.mem_cons.mp hp with rfl | hp
      · exact hk
      · exact hl1 p hp

theorem alist_perm_of_afind_eq {α β : Type} [DecidableEq α] :
    ∀ (m1 m2 : List (α × β)), (m1.map Prod.fst).Nodup → (m2.map Prod.fst).Nodup →
      (∀ a, afind m1 a = afind m2 a) → m1.Perm m2 := by
  intro m1
  induction m1 with
  | nil =>
    intro m2 _ _ h
    cases m2 with
    | nil => exact List.Perm.refl _
    | cons q t =>
      obtain ⟨k, v⟩ := q
      have hc := (h k).symm
      rw [afind_cons, if_pos rfl] at hc
      simp [afind] at hc
  | cons q t ih =>
    obtain ⟨k, v⟩ := q
    intro m2 h1 h2 h
    rw [List.map_cons, List.nodup_cons] at h1
    obtain ⟨hknotin, ht⟩ := h1
    have hk2 : afind m2 k = some v := by
      have hc := h k
      rw [afind_cons, if_pos rfl] at hc
      exact hc.symm
    obtain ⟨l1, l2, heq, hl1⟩ := afind_split hk2
    subst heq
    have hperm : (l1 ++ (k, v) :: l2).Perm ((k, v) :: (l1 ++ l2)) := List.perm_middle
    have hkeys : ((k, v) :: (l1 ++ l2)).map Prod.fst |>.Nodup :=
      (List.Perm.nodup_iff (hperm.map Prod.fst)).mp h2
    rw [List.map_cons, List.nodup_cons] at hkeys
    obtain ⟨hknotin12, h12⟩ := hkeys
    have hfind : ∀ a, afind t a = afind (l1 ++ l2) a := by
      intro a
      by_cases ha : a = k
      · subst ha
        rw [(afind_eq_none_iff t a).mpr hknotin, (afind_eq_none_iff (l1 ++ l2) a).mpr hknotin12]
      · have hc := h a
        rw [afind_cons, if_neg (fun hh => ha hh.symm)] at hc
        rw [hc, afind_append, afind_append]
        cases afind l1 a with
        | some w => rfl
        | none =>
          simp only [Option.elim]
          rw [afind_cons, if_neg (fun hh => ha hh.symm)]
    exact (List.Perm.cons (k, v) (ih (l1 ++ l2) ht h12 hfind)).trans List.perm_middle.symm

/-! ## Provider-B bucketing lemmas -/

theorem bucketStep_eq (tz : Int → Int)
    (acc : List (Date × DailyTotals) × List (Date × List String)) (r : MergedRec) :
    bucketStep tz acc r = (tokStep tz acc.1 r, sidStep tz acc.2 r) := rfl

theorem bucketFold_fst (tz : Int → Int) (vals : List MergedRec) :
    ∀ acc : List (Date × DailyTotals) × List (Date × List String),
      (vals.foldl (bucketStep tz) acc).1 = vals.foldl (tokStep tz) acc.1 := by
  induction vals with
  | nil => intro acc; rfl
  | cons r vs ih => intro acc; rw [List.foldl_cons, List.foldl_cons, ih, bucketStep_eq]

theorem bucketFold_snd (tz : Int → Int) (vals : List MergedRec) :
    ∀ acc : List (Date × DailyTotals) × List (Date × List String),
      (vals.foldl (bucketStep tz) acc).2 = vals.foldl (sidStep tz) acc.2 := by
  induction vals with
  | nil => intro acc; rfl
  | cons r vs ih => intro acc; rw [List.foldl_cons, List.foldl_cons, ih, bucketStep_eq]

theorem afind_tokStep (tz : Int → Int) (ts : List (Date × DailyTotals)) (r : MergedRec)
    (a : Date) :
    afind (tokStep tz ts r) a =
      if a = dateOfInstant tz r.ts then
        some { date := ((afind ts (dateOfInstant tz r.ts)).getD
                 ⟨dateOfInstant tz r.ts, 0, 0⟩).date
               sessions := ((afind ts (dateOfInstant tz r.ts)).getD
                 ⟨dateOfInstant tz r.ts, 0, 0⟩).sessions
               total_tokens := ((afind ts (dateOfInstant tz r.ts)).getD
                 ⟨dateOfInstant tz r.ts, 0, 0⟩).total_tokens + (sum4 r : Int) }
      else afind ts a := by
  rw [tokStep, afind_aupd]
  cases h : afind ts (dateOfInstant tz r.ts) <;> simp [h]

/-- Per-date characterization of the `total_tokens` fold. -/
theorem tokFold_afind (tz : Int → Int) (vals : List MergedRec) :
    ∀ ts d, afind (vals.foldl (tokStep tz) ts) d =
      if (vals.filter (fun x => dateOfInstant tz x.ts = d)).isEmpty then afind ts d
      else
        some { date := ((afind ts d).getD ⟨d, 0, 0⟩).date
               sessions := ((afind ts d).getD ⟨d, 0, 0⟩).sessions
               total_tokens := ((afind ts d).getD ⟨d, 0, 0⟩).total_tokens +
                 ((vals.filter (fun x => dateOfInstant tz x.ts = d)).map
                   (fun x => (sum4 x : Int))).sum } := by
  induction vals with
  | nil => intro ts d; simp
  | cons r vs ih =>
    intro ts d
    rw [List.foldl_cons, ih]
    by_cases hd : dateOfInstant tz r.ts = d
    · have hfc : (r :: vs).filter (fun x => dateOfInstant tz x.ts = d) =
          r :: vs.filter (fun x => dateOfInstant tz x.ts = d) := by
        rw [List.filter_cons, if_pos (by simp [hd])]
      have hstep : afind (tokStep tz ts r) d =
          some { date := ((afind ts d).getD ⟨d, 0, 0⟩).date
                 sessions := ((afind ts d).getD ⟨d, 0, 0⟩).sessions
                 total_tokens := ((afind ts d).getD ⟨d, 0, 0⟩).total_tokens +
                   (sum4 r : Int) } := by
        rw [afind_tokStep, hd, if_pos rfl]
      rw [hfc, hstep]
      by_cases hrest : (vs.filter (fun x => dateOfInstant tz x.ts = d)).isEmpty
      · have hre : vs.filter (fun x => dateOfInstant tz x.ts = d) = [] :=
          List.isEmpty_iff.mp hrest
        rw [if_pos hrest, hre, if_neg (by simp)]
        simp only [List.map_cons, List.map_nil, List.sum_cons, List.sum_nil, Option.getD_some]
        congr 1
      · rw [if_neg hrest, if_neg (by simp)]
        simp only [Option.getD_some, List.map_cons, List.sum_cons]
        congr 1
        all_goals congr 1
        all_goals omega
    · have hfc : (r :: vs).filter (fun x => dateOfInstant tz x.ts = d) =
          vs.filter (fun x => dateOfInstant tz x.ts = d) := by
        rw [List.filter_cons, if_neg (by simpa using hd)]
      have hstep : afind (tokStep tz ts r) d = afind ts d := by
        rw [afind_tokStep, if_neg (fun h => hd h.symm)]
      rw [hfc, hstep]

theorem afind_sidStep (tz : Int → Int) (ss : List (Date × List String)) (r : MergedRec)
    (a : Date) :
    afind (sidStep tz ss r) a =
      if r.sessionId ≠ "" ∧ a = dateOfInstant tz r.ts then
        some (insertSid ((afind ss (dateOfInstant tz r.ts)).getD []) r.sessionId)
      else afind ss a := by
  rw [sidStep]
  by_cases hs : r.sessionId = ""
  · rw [if_pos hs, if_neg (by simp [hs])]
  · rw [if_neg hs, afind_aupd]
    by_cases ha : a = dateOfInstant tz r.ts
    · rw [if_pos ha, if_pos ⟨hs, ha⟩]
      cases h : afind ss (dateOfInstant tz r.ts) <;> simp [h]
    · rw [if_neg ha, if_neg (fun hc => ha hc.2)]

theorem sidsOn_cons (tz : Int → Int) (r : MergedRec) (vs : List MergedRec) (d : Date) :
    sidsOn tz (r :: vs) d =
      if r.sessionId ≠ "" ∧ dateOfInstant tz r.ts = d then r.sessionId :: sidsOn tz vs d
      else sidsOn tz vs d := by
  rw [sidsOn, sidsOn, List.filter_cons]
  by_cases h1 : dateOfInstant tz r.ts = d
  · rw [if_pos (by simp [h1]), List.map_cons, List.filter_cons]
    by_cases h2 : r.sessionId = ""
    · rw [if_neg (by simp [h2]), if_neg (by simp [h2])]
    · rw [if_pos (by simp [h2]), if_pos ⟨h2, h1⟩]
  · rw [if_neg (by simp [h1]), if_neg (fun hc => h1 hc.2)]

/-- Per-date characterization of the session-set fold. -/
theorem sidFold_afind (tz : Int → Int) (vals : List MergedRec) :
    ∀ ss d, afind (vals.foldl (sidStep tz) ss) d =
      if (sidsOn tz vals d).isEmpty then afind ss d
      else some ((sidsOn tz vals d).foldl insertSid ((afind ss d).getD [])) := by
  induction vals with
  | nil => intro ss d; simp [sidsOn]
  | cons r vs ih =>
    intro ss d
    rw [List.foldl_cons, ih, sidsOn_cons]
    by_cases hc : r.sessionId ≠ "" ∧ dateOfInstant tz r.ts = d
    · rw [if_pos hc]
      have hstep : afind (sidStep tz ss r) d =
          some (insertSid ((afind ss d).getD []) r.sessionId) := by
        rw [afind_sidStep, if_pos ⟨hc.1, hc.2.symm⟩, hc.2]
      rw [hstep]
      by_cases hrest : (sidsOn tz vs d).isEmpty
      · have hre : sidsOn tz vs d = [] := List.isEmpty_iff.mp hrest
        rw [if_pos hrest, hre, if_neg (by simp)]
        rfl
      · rw [if_neg hrest, if_neg (by simp)]
        simp only [Option.getD_some, List.foldl_cons]
    · rw [if_neg hc]
      have hstep : afind (sidStep tz ss r) d = afind ss d := by
        rw [afind_sidStep, if_neg (fun hcc => hc ⟨hcc.1, hcc.2.symm⟩)]
      rw [hstep]

theorem sidFold_keys_nodup (tz : Int → Int) (vals : List MergedRec) :
    ∀ ss : List (Date × List String), ((ss.map Prod.fst).Nodup) →
      (((vals.foldl (sidStep tz) ss).map Prod.fst).Nodup) := by
  induction vals with
  | nil => intro ss h; exact h
  | cons r vs ih =>
    intro ss h
    rw [List.foldl_cons]
    refine ih _ ?_
    rw [sidStep]
    by_cases hs : r.sessionId = ""
    · rw [if_pos hs]; exact h
    · rw [if_neg hs]; exact nodup_keys_aupd h _ _ _

theorem afind_applySessStep (totals : List (Date × DailyTotals)) (x : Date × List String)
    (a : Date) :
    afind (applySessStep totals x) a =
      if a = x.1 then (afind totals a).map (setSessions (x.2.length : Int))
      else afind totals a := by
  rw [applySessStep]
  by_cases hs : (afind totals x.1).isSome
  · rw [if_pos hs, afind_mapReplace]
    by_cases ha : a = x.1
    · subst ha; rw [if_pos rfl]
    · rw [if_neg ha, if_neg ha]
  · rw [if_neg hs]
    by_cases ha : a = x.1
    · subst ha
      rw [Option.not_isSome_iff_eq_none] at hs
      rw [if_pos rfl, hs]
      rfl
    · rw [if_neg ha]

/-- Per-date characterization of the final session pass. -/
theorem applySessFold_afind (ss : List (Date × List String)) :
    ∀ totals, ((ss.map Prod.fst).Nodup) → ∀ d,
      afind (ss.foldl applySessStep totals) d =
        match afind ss d with
        | some l => (afind totals d).map (setSessions (l.length : Int))
        | none => afind totals d := by
  induction ss with
  | nil =>
    intro totals _ d
    show afind totals d = _
    cases h : afind totals d <;> rfl
  | cons x xs ih =>
    obtain ⟨xd, xl⟩ := x
    intro totals hnd d
    rw [List.foldl_cons]
    rw [List.map_cons, List.nodup_cons] at hnd
    rw [ih _ hnd.2]
    by_cases hd : d = xd
    · subst hd
      have hxs : afind xs d = none := (afind_eq_none_iff xs d).mpr hnd.1
      have hcons : afind ((d, xl) :: xs) d = some xl := by rw [afind_cons, if_pos rfl]
      rw [hxs, hcons]
      have hstep : afind (applySessStep totals (d, xl)) d =
          (afind totals d).map (setSessions (xl.length : Int)) := by
        rw [afind_applySessStep, if_pos rfl]
      exact hstep
    · have hcons : afind ((xd, xl) :: xs) d = afind xs d := by
        rw [afind_cons, if_neg (fun h => hd h.symm)]
      rw [hcons]
      have hstep : afind (applySessStep totals (xd, xl)) d = afind totals d := by
        rw [afind_applySessStep, if_neg hd]
      cases hxx : afind xs d <;> simp only [hstep]

/-- Master per-date characterization of the provider-B bucketing: an entry
exists iff some merged record lands on the date; its `total_tokens` is the sum
of the four-counter sums of the records landing there, and its `sessions` is
the size of the set of their non-empty session ids. -/
theorem claudeTotals_afind (tz : Int → Int) (vals : List MergedRec) (d : Date) :
    afind (claudeTotalsOf tz vals) d =
      if (vals.filter (fun x => dateOfInstant tz x.ts = d)).isEmpty then none
      else
        some { date := d
               sessions := (((sidsOn tz vals d).foldl insertSid []).length : Int)
               total_tokens := ((vals.filter (fun x => dateOfInstant tz x.ts = d)).map
                 (fun x => (sum4 x : Int))).sum } := by
  have h0 : claudeTotalsOf tz vals =
      ((vals.foldl (bucketStep tz) ([], [])).2).foldl applySessStep
        ((vals.foldl (bucketStep tz) ([], [])).1) := rfl
  rw [h0, bucketFold_fst, bucketFold_snd]
  have hnd : (((vals.foldl (sidStep tz) ([] : List (Date × List String))).map
      Prod.fst).Nodup) := sidFold_keys_nodup tz vals [] (by simp)
  rw [applySessFold_afind _ _ hnd d]
  by_cases hf : (vals.filter (fun x => dateOfInstant tz x.ts = d)).isEmpty
  · have hre : vals.filter (fun x => dateOfInstant tz x.ts = d) = [] :=
      List.isEmpty_iff.mp hf
    have htok : afind (vals.foldl (tokStep tz) []) d = none := by
      rw [tokFold_afind, if_pos hf]; rfl
    have hsid0 : sidsOn tz vals d = [] := by
      rw [sidsOn, hre]; rfl
    have hsid : afind (vals.foldl (sidStep tz) []) d = none := by
      rw [sidFold_afind, if_pos (by simp [hsid0])]; rfl
    rw [if_pos hf, hsid, htok]
  · have htok : afind (vals.foldl (tokStep tz) []) d =
        some { date := d, sessions := 0,
               total_tokens := 0 + ((vals.filter (fun x => dateOfInstant tz x.ts = d)).map
                 (fun x => (sum4 x : Int))).sum } := by
      rw [tokFold_afind, if_neg hf]; rfl
    rw [if_neg hf]
    by_cases hsidE : (sidsOn tz vals d).isEmpty
    · have hre : sidsOn tz vals d = [] := List.isEmpty_iff.mp hsidE
      have hsid : afind (vals.foldl (sidStep tz) []) d = none := by
        rw [sidFold_afind, if_pos hsidE]; rfl
      rw [hsid, htok, hre]
      show some _ = some _
      congr 1
      congr 1
      all_goals simp
    · have hsid : afind (vals.foldl (sidStep tz) []) d =
          some ((sidsOn tz vals d).foldl insertSid []) := by
        rw [sidFold_afind, if_neg hsidE]; rfl
      rw [hsid, htok]
      show some _ = some _
      congr 1
      simp [setSessions]

/-! ## Session-set lemmas -/

theorem mem_insertSid (l : List String) (s a : String) :
    a ∈ insertSid l s ↔ a ∈ l ∨ a = s := by
  unfold insertSid
  by_cases h : s ∈ l
  · rw [if_pos h]
    constructor
    · exact Or.inl
    · rintro (ha | rfl)
      · exact ha
      · exact h
  · rw [if_neg h]
    simp

theorem nodup_insertSid {l : List String} (h : l.Nodup) (s : String) :
    (insertSid l s).Nodup := by
  unfold insertSid
  by_cases hs : s ∈ l
  · rw [if_pos hs]; exact h
  · rw [if_neg hs]
    refine List.Nodup.append h (List.nodup_singleton s) ?_
    intro a ha hmem
    rw [List.mem_singleton] at hmem
    exact hs (hmem ▸ ha)

theorem mem_insertSidFold (xs : List String) :
    ∀ l a, a ∈ xs.foldl insertSid l ↔ a ∈ l ∨ a ∈ xs := by
  induction xs with
  | nil => intro l a; simp
  | cons x xs ih =>
    intro l a
    rw [List.foldl_cons, ih, mem_insertSid]
    simp [or_assoc]

theorem nodup_insertSidFold (xs : List String) :
    ∀ l, l.Nodup → (xs.foldl insertSid l).Nodup := by
  induction xs with
  | nil => intro l h; exact h
  | cons x xs ih => intro l h; exact ih _ (nodup_insertSid h x)

/-- The size of the session set equals the number of distinct session ids. -/
theorem length_insertSidFold (xs : List String) :
    (xs.foldl insertSid []).length = xs.toFinset.card := by
  have h1 : (xs.foldl insertSid []).Nodup := nodup_insertSidFold xs [] (List.nodup_nil)
  have h2 : (xs.foldl insertSid []).toFinset = xs.toFinset := by
    apply Finset.ext
    intro a
    rw [List.mem_toFinset, List.mem_toFinset, mem_insertSidFold]
    simp
  rw [← List.toFinset_card_of_nodup h1, h2]

theorem afind_of_mem_nodup {α β : Type} [DecidableEq α] {m : List (α × β)}
    (hm : (m.map Prod.fst).Nodup) {k : α} {v : β} (h : (k, v) ∈ m) :
    afind m k = some v := by
  induction m with
  | nil => cases h
  | cons q t ih =>
    obtain ⟨k', w⟩ := q
    rw [List.map_cons, List.nodup_cons] at hm
    rcases List.mem_cons.mp h with heq | hmem
    · obtain ⟨rfl, rfl⟩ := Prod.mk.injEq .. ▸ heq
      rw [afind_cons, if_pos rfl]
    · have hk : k' ≠ k := by
        rintro rfl
        exact hm.1 (List.mem_map.mpr ⟨(k', v), hmem, rfl⟩)
      rw [afind_cons, if_neg hk]
      exact ih hm.2 hmem

/-! ## C1: the per-key keep-max merge and its contribution -/

/-- C1: for a key observed at least once, the deduplicated record holds the
maximum of each of the four counters and the latest timestamp over exactly the
observations of that key, and the totals entry of the record's date sums the
four-counter totals of all deduplicated records landing on that date (this
record among them). -/
theorem claim_C1 (tz : Int → Int) (fs : List ClaudeFile) (k : String × String)
    (h : (claudeObs fs).filter (fun o => obsKey o = k) ≠ []) :
    ∃ r : MergedRec,
      afind (claudeMerge fs) k = some r ∧
      r.sessionId = k.1 ∧
      (((claudeObs fs).filter (fun o => obsKey o = k)).map (fun o => o.ts)).max? =
        some r.ts ∧
      (((claudeObs fs).filter (fun o => obsKey o = k)).map
        (fun o => o.input_tokens)).max? = some r.input_tokens ∧
      (((claudeObs fs).filter (fun o => obsKey o = k)).map
        (fun o => o.cache_creation_input_tokens)).max? =
          some r.cache_creation_input_tokens ∧
      (((claudeObs fs).filter (fun o => obsKey o = k)).map
        (fun o => o.cache_read_input_tokens)).max? = some r.cache_read_input_tokens ∧
      (((claudeObs fs).filter (fun o => obsKey o = k)).map
        (fun o => o.output_tokens)).max? = some r.output_tokens ∧
      r ∈ (claudeMerge fs).map Prod.snd ∧
      ∃ t, afind (collectClaudeDailyTotals tz (some fs)) (dateOfInstant tz r.ts) = some t ∧
        t.total_tokens = ((((claudeMerge fs).map Prod.snd).filter
          (fun x => dateOfInstant tz x.ts = dateOfInstant tz r.ts)).map
            (fun x => (sum4 x : Int))).sum := by
  have hchar : afind (claudeMerge fs) k =
      mergeFoldOpt (afind ([] : List ((String × String) × MergedRec)) k)
        ((claudeObs fs).filter (fun o => obsKey o = k)) :=
    claudeMergeFold_afind (claudeObs fs) [] k
  cases hos : (claudeObs fs).filter (fun o => obsKey o = k) with
  | nil => exact absurd hos h
  | cons o os =>
    have hok : obsKey o = k := by
      have : o ∈ (claudeObs fs).filter (fun x => obsKey x = k) := by
        rw [hos]; exact List.mem_cons_self _ _
      simpa using (List.mem_filter.mp this).2
    rw [show (afind ([] : List ((String × String) × MergedRec)) k) = none from rfl] at hchar
    rw [hos, mergeFoldOpt_cons] at hchar
    refine ⟨_, hchar, ?_, ?_, ?_, ?_, ?_, ?_, ?_, ?_⟩
    · rw [mergeRec_foldl]
      show o.sessionId = k.1
      rw [← hok]
      rfl
    · rw [mergeRec_foldl, List.map_cons]
      show some ((List.map (fun o => o.ts) os).foldl max o.ts) = _
      rw [List.foldl_map]
      rfl
    · rw [mergeRec_foldl, List.map_cons]
      show some ((List.map (fun o => o.input_tokens) os).foldl max o.input_tokens) = _
      rw [List.foldl_map]
      rfl
    · rw [mergeRec_foldl, List.map_cons]
      show some ((List.map (fun o => o.cache_creation_input_tokens) os).foldl max
        o.cache_creation_input_tokens) = _
      rw [List.foldl_map]
      rfl
    · rw [mergeRec_foldl, List.map_cons]
      show some ((List.map (fun o => o.cache_read_input_tokens) os).foldl max
        o.cache_read_input_tokens) = _
      rw [List.foldl_map]
      rfl
    · rw [mergeRec_foldl, List.map_cons]
      show some ((List.map (fun o => o.output_tokens) os).foldl max o.output_tokens) = _
      rw [List.foldl_map]
      rfl
    · exact List.mem_map.mpr ⟨(k, _), afind_mem hchar, rfl⟩
    · have hmem : (os.foldl mergeRec (obsRec o) : MergedRec) ∈
          (claudeMerge fs).map Prod.snd :=
        List.mem_map.mpr ⟨(k, _), afind_mem hchar, rfl⟩
      set r := (os.foldl mergeRec (obsRec o)) with hr
      have hval := claudeTotals_afind tz ((claudeMerge fs).map Prod.snd)
        (dateOfInstant tz r.ts)
      have hne : ¬ (((claudeMerge fs).map Prod.snd).filter
          (fun x => dateOfInstant tz x.ts = dateOfInstant tz r.ts)).isEmpty := by
        rw [List.isEmpty_iff]
        intro hnil
        have hrmem : r ∈ ((claudeMerge fs).map Prod.snd).filter
            (fun x => dateOfInstant tz x.ts = dateOfInstant tz r.ts) :=
          List.mem_filter.mpr ⟨hmem, by simp⟩
        rw [hnil] at hrmem
        cases hrmem
      refine ⟨{ date := dateOfInstant tz r.ts
                sessions := (((sidsOn tz ((claudeMerge fs).map Prod.snd)
                  (dateOfInstant tz r.ts)).foldl insertSid []).length : Int)
                total_tokens := ((((claudeMerge fs).map Prod.snd).filter
                  (fun x => dateOfInstant tz x.ts = dateOfInstant tz r.ts)).map
                    (fun x => (sum4 x : Int))).sum }, ?_, rfl⟩
      rw [show collectClaudeDailyTotals tz (some fs) =
        claudeTotalsOf tz ((claudeMerge fs).map Prod.snd) from rfl]
      rw [hval, if_neg hne]

/-- Witness for C1: requestId `req-1` observed with `output_tokens` 8 then
177 and the other three fields at 10/20/30 merges to the field-wise maxima
and contributes 10+20+30+177 = 237 tokens to its date. -/
theorem claim_C1_witness :
    (∃ r : MergedRec,
      afind (claudeMerge [claudeFileDup]) ("s1", "req-1") = some r ∧
      r.sessionId = ("s1", "req-1").1 ∧
      (((claudeObs [claudeFileDup]).filter
        (fun o => obsKey o = ("s1", "req-1"))).map (fun o => o.ts)).max? = some r.ts ∧
      (((claudeObs [claudeFileDup]).filter (fun o => obsKey o = ("s1", "req-1"))).map
        (fun o => o.input_tokens)).max? = some r.input_tokens ∧
      (((claudeObs [claudeFileDup]).filter (fun o => obsKey o = ("s1", "req-1"))).map
        (fun o => o.cache_creation_input_tokens)).max? =
          some r.cache_creation_input_tokens ∧
      (((claudeObs [claudeFileDup]).filter (fun o => obsKey o = ("s1", "req-1"))).map
        (fun o => o.cache_read_input_tokens)).max? = some r.cache_read_input_tokens ∧
      (((claudeObs [claudeFileDup]).filter (fun o => obsKey o = ("s1", "req-1"))).map
        (fun o => o.output_tokens)).max? = some r.output_tokens ∧
      r ∈ (claudeMerge [claudeFileDup]).map Prod.snd ∧
      ∃ t, afind (collectClaudeDailyTotals (fun _ => 0) (some [claudeFileDup]))
          (dateOfInstant (fun _ => 0) r.ts) = some t ∧
        t.total_tokens = ((((claudeMerge [claudeFileDup]).map Prod.snd).filter
          (fun x => dateOfInstant (fun _ => 0) x.ts = dateOfInstant (fun _ => 0) r.ts)).map
            (fun x => (sum4 x : Int))).sum) ∧
    collectClaudeDailyTotals (fun _ => 0) (some [claudeFileDup]) =
      [(⟨2026, 3, 1⟩, ⟨⟨2026, 3, 1⟩, 1, 237⟩)] :=
  ⟨claim_C1 (fun _ => 0) [claudeFileDup] ("s1", "req-1") (by decide), by decide⟩

/-! ## C6: session counting -/

/-- An extracted observation's resolved session id is non-empty whenever the
file stem is (the source falls back to the stem for missing, non-string or
empty `sessionId` values). -/
theorem extractLine_sid {stem : String} {line : Option JObj} {o : Obs}
    (hstem : stem ≠ "") (h : extractLine stem line = some o) : o.sessionId ≠ "" := by
  unfold extractLine at h
  repeat' split at h
  all_goals try exact Option.noConfusion h
  all_goals injection h with h
  all_goals subst h
  all_goals dsimp only
  all_goals first
    | exact hstem
    | assumption

theorem claudeObs_sid (fs : List ClaudeFile) (hstem : ∀ f ∈ fs, f.stem ≠ "") :
    ∀ o ∈ claudeObs fs, o.sessionId ≠ "" := by
  intro o ho
  rw [claudeObs, List.mem_flatMap] at ho
  obtain ⟨f, hf, ho⟩ := ho
  rw [List.mem_filterMap] at ho
  obtain ⟨line, _, hline⟩ := ho
  exact extractLine_sid (hstem f hf) hline

/-- Every deduplicated record's session id is the first component of its key
and comes from one of its observations; in particular it is non-empty when
all stems are. -/
theorem claudeMergeValues_sid (fs : List ClaudeFile) (hstem : ∀ f ∈ fs, f.stem ≠ "") :
    ∀ r ∈ (claudeMerge fs).map Prod.snd, r.sessionId ≠ "" := by
  intro r hr
  rw [List.mem_map] at hr
  obtain ⟨⟨k, r'⟩, hmem, rfl⟩ := hr
  have hfind : afind (claudeMerge fs) k = some r' :=
    afind_of_mem_nodup (claudeMerge_keys_nodup (claudeObs fs) [] (by simp)) hmem
  show r'.sessionId ≠ ""
  rw [claudeMerge, claudeMergeFold_afind,
    show (afind ([] : List ((String × String) × MergedRec)) k) = none from rfl] at hfind
  cases hos : (claudeObs fs).filter (fun o => obsKey o = k) with
  | nil =>
    rw [hos] at hfind
    exact absurd hfind (by simp [mergeFoldOpt])
  | cons o os =>
    rw [hos, mergeFoldOpt_cons, mergeRec_foldl, Option.some.injEq] at hfind
    have ho : o ∈ claudeObs fs := by
      have hof : o ∈ (claudeObs fs).filter (fun x => obsKey x = k) := by
        rw [hos]; exact List.mem_cons_self _ _
      exact (List.mem_filter.mp hof).1
    have hne := claudeObs_sid fs hstem o ho
    rw [← hfind]
    exact hne

/-- C6: for every date present in the provider-B result, `sessions` is the
number of distinct session identifiers among the deduplicated requests whose
final merged timestamp lands on that date — not the number of raw lines and
not the number of requests.  (The stems of real log files are non-empty, as
`rglob("*.jsonl")` only matches names ending in `.jsonl`.) -/
theorem claim_C6 (tz : Int → Int) (fs : List ClaudeFile)
    (hstem : ∀ f ∈ fs, f.stem ≠ "") (d : Date) (t : DailyTotals)
    (ht : afind (collectClaudeDailyTotals tz (some fs)) d = some t) :
    t.sessions = ((((((claudeMerge fs).map Prod.snd).filter
      (fun r => dateOfInstant tz r.ts = d)).map (fun r => r.sessionId)).toFinset.card : Int)) := by
  rw [show collectClaudeDailyTotals tz (some fs) =
    claudeTotalsOf tz ((claudeMerge fs).map Prod.snd) from rfl] at ht
  rw [claudeTotals_afind] at ht
  by_cases hf : (((claudeMerge fs).map Prod.snd).filter
      (fun x => dateOfInstant tz x.ts = d)).isEmpty
  · rw [if_pos hf] at ht
    exact absurd ht (by simp)
  · rw [if_neg hf, Option.some.injEq] at ht
    subst ht
    dsimp only
    rw [length_insertSidFold]
    have hall : ((((claudeMerge fs).map Prod.snd).filter
        (fun x => dateOfInstant tz x.ts = d)).map (fun r => r.sessionId)).filter
          (fun s => s ≠ "") =
        (((claudeMerge fs).map Prod.snd).filter
          (fun x => dateOfInstant tz x.ts = d)).map (fun r => r.sessionId) := by
      rw [List.filter_eq_self]
      intro a ha
      rw [List.mem_map] at ha
      obtain ⟨r, hr, rfl⟩ := ha
      have := claudeMergeValues_sid fs hstem r (List.mem_filter.mp hr).1
      simpa using this
    rw [sidsOn, hall]

/-- Witness for C6: three requests from two sessions on one date give
`sessions = 2`. -/
theorem claim_C6_witness :
    ((⟨⟨2026, 3, 1⟩, 2, 7⟩ : DailyTotals).sessions =
      ((((((claudeMerge [claudeFileSess]).map Prod.snd).filter
        (fun r => dateOfInstant (fun _ => 0) r.ts = ⟨2026, 3, 1⟩)).map
          (fun r => r.sessionId)).toFinset.card : Int))) ∧
    collectClaudeDailyTotals (fun _ => 0) (some [claudeFileSess]) =
      [(⟨2026, 3, 1⟩, ⟨⟨2026, 3, 1⟩, 2, 7⟩)] :=
  ⟨claim_C6 (fun _ => 0) [claudeFileSess] (by decide) ⟨2026, 3, 1⟩ ⟨⟨2026, 3, 1⟩, 2, 7⟩
    (by decide), by decide⟩

/-! ## C8: order-independence of the merge and bucketing -/

theorem perm_isEmpty_eq {α : Type} {l1 l2 : List α} (h : l1.Perm l2) :
    l1.isEmpty = l2.isEmpty := by
  cases l1 with
  | nil =>
    have h2 : l2 = [] := (h.symm).eq_nil
    rw [h2]
  | cons a t =>
    cases l2 with
    | nil => exact absurd h.eq_nil (by simp)
    | cons b s => rfl

/-- The merge step is commutative on observations sharing a key (the key
contains the session id, so both store the same one). -/
theorem mergeStepO_comm {k : String × String} {x y : Obs}
    (hx : obsKey x = k) (hy : obsKey y = k) (c : Option MergedRec) :
    mergeStepO (mergeStepO c x) y = mergeStepO (mergeStepO c y) x := by
  have hsid : x.sessionId = y.sessionId := by
    have h1 : (obsKey x).1 = (obsKey y).1 := by rw [hx, hy]
    simpa [obsKey] using h1
  cases c with
  | none =>
    simp only [mergeStepO, obsRec, mergeRec]
    refine congrArg some ?_
    rw [MergedRec.mk.injEq]
    refine ⟨hsid, ?_, ?_, ?_, ?_, ?_⟩ <;> omega
  | some r =>
    simp only [mergeStepO, mergeRec]
    refine congrArg some ?_
    rw [MergedRec.mk.injEq]
    refine ⟨rfl, ?_, ?_, ?_, ?_, ?_⟩ <;> omega

/-- Permuting the observations leaves every `request_usage` lookup unchanged. -/
theorem claudeMergeFold_perm (obs1 obs2 : List Obs) (h : obs1.Perm obs2)
    (k : String × String) :
    afind (obs1.foldl updKey []) k = afind (obs2.foldl updKey []) k := by
  rw [claudeMergeFold_afind, claudeMergeFold_afind]
  have hp : (obs1.filter (fun o => obsKey o = k)).Perm
      (obs2.filter (fun o => obsKey o = k)) := h.filter _
  unfold mergeFoldOpt
  refine hp.foldl_eq' ?_ _
  intro x hx y hy c
  have hxk : obsKey x = k := by simpa using (List.mem_filter.mp hx).2
  have hyk : obsKey y = k := by simpa using (List.mem_filter.mp hy).2
  exact mergeStepO_comm hxk hyk c

/-- Permuting the observations permutes the deduplicated records. -/
theorem claudeMergeValues_perm (obs1 obs2 : List Obs) (h : obs1.Perm obs2) :
    ((obs1.foldl updKey []).map Prod.snd).Perm ((obs2.foldl updKey []).map Prod.snd) :=
  List.Perm.map Prod.snd
    (alist_perm_of_afind_eq _ _ (claudeMerge_keys_nodup obs1 [] (by simp))
      (claudeMerge_keys_nodup obs2 [] (by simp)) (claudeMergeFold_perm obs1 obs2 h))

/-- C8: two provider-B inputs whose observation streams are permutations of
each other produce identical date-to-DailyTotals mappings. -/
theorem claim_C8 (tz : Int → Int) (fs1 fs2 : List ClaudeFile)
    (h : (claudeObs fs1).Perm (claudeObs fs2)) (d : Date) :
    afind (collectClaudeDailyTotals tz (some fs1)) d =
      afind (collectClaudeDailyTotals tz (some fs2)) d := by
  have hv : ((claudeMerge fs1).map Prod.snd).Perm ((claudeMerge fs2).map Prod.snd) :=
    claudeMergeValues_perm _ _ h
  rw [show collectClaudeDailyTotals tz (some fs1) =
    claudeTotalsOf tz ((claudeMerge fs1).map Prod.snd) from rfl]
  rw [show collectClaudeDailyTotals tz (some fs2) =
    claudeTotalsOf tz ((claudeMerge fs2).map Prod.snd) from rfl]
  rw [claudeTotals_afind, claudeTotals_afind]
  have hfil : (((claudeMerge fs1).map Prod.snd).filter
      (fun x => dateOfInstant tz x.ts = d)).Perm
      (((claudeMerge fs2).map Prod.snd).filter (fun x => dateOfInstant tz x.ts = d)) :=
    hv.filter _
  have hemp : (((claudeMerge fs1).map Prod.snd).filter
      (fun x => dateOfInstant tz x.ts = d)).isEmpty =
      (((claudeMerge fs2).map Prod.snd).filter
        (fun x => dateOfInstant tz x.ts = d)).isEmpty := perm_isEmpty_eq hfil
  have hsum : ((((claudeMerge fs1).map Prod.snd).filter
      (fun x => dateOfInstant tz x.ts = d)).map (fun x => (sum4 x : Int))).sum =
      ((((claudeMerge fs2).map Prod.snd).filter
        (fun x => dateOfInstant tz x.ts = d)).map (fun x => (sum4 x : Int))).sum :=
    (hfil.map _).sum_eq
  have hsids : (sidsOn tz ((claudeMerge fs1).map Prod.snd) d).Perm
      (sidsOn tz ((claudeMerge fs2).map Prod.snd) d) := by
    rw [sidsOn, sidsOn]
    exact ((hv.filter _).map _).filter _
  have hfs : (sidsOn tz ((claudeMerge fs1).map Prod.snd) d).toFinset =
      (sidsOn tz ((claudeMerge fs2).map Prod.snd) d).toFinset := by
    apply Finset.ext
    intro a
    rw [List.mem_toFinset, List.mem_toFinset]
    exact ⟨fun ha => hsids.mem_iff.mp ha, fun ha => hsids.mem_iff.mpr ha⟩
  have hlen : ((sidsOn tz ((claudeMerge fs1).map Prod.snd) d).foldl insertSid []).length =
      ((sidsOn tz ((claudeMerge fs2).map Prod.snd) d).foldl insertSid []).length := by
    rw [length_insertSidFold, length_insertSidFold, hfs]
  rw [hemp, hsum, hlen]

/-- Witness for C8: swapping the two duplicate-observation lines leaves the
resulting mapping identical. -/
theorem claim_C8_witness :
    (∀ d : Date,
      afind (collectClaudeDailyTotals (fun _ => 0) (some [claudeFileDup])) d =
        afind (collectClaudeDailyTotals (fun _ => 0) (some [claudeFileDupPerm])) d) ∧
    collectClaudeDailyTotals (fun _ => 0) (some [claudeFileDupPerm]) =
      [(⟨2026, 3, 1⟩, ⟨⟨2026, 3, 1⟩, 1, 237⟩)] :=
  ⟨fun d => claim_C8 (fun _ => 0) [claudeFileDup] [claudeFileDupPerm] (by decide) d, by decide⟩

/-! ## C4: treatment of the four usage sub-fields -/

/-- Every successfully extracted observation draws its four counters from
`_safe_int` applied to the four `usage` lookups. -/
theorem extractLine_fields {stem : String} {line : Option JObj} {o : Obs}
    (h : extractLine stem line = some o) :
    ∃ ukvs : JObj, usageOf line = some ukvs ∧
      o.input_tokens = safeInt (jfind ukvs "input_tokens") ∧
      o.cache_creation_input_tokens = safeInt (jfind ukvs "cache_creation_input_tokens") ∧
      o.cache_read_input_tokens = safeInt (jfind ukvs "cache_read_input_tokens") ∧
      o.output_tokens = safeInt (jfind ukvs "output_tokens") := by
  unfold extractLine at h
  repeat' split at h
  all_goals try exact Option.noConfusion h
  all_goals injection h with h
  all_goals subst h
  all_goals
    refine ⟨_, ?_, rfl, rfl, rfl, rfl⟩
  all_goals unfold usageOf
  all_goals simp only [*]
  all_goals simp

/-- C4 (amended): each of the four usage sub-fields of a considered line is
passed through `_safe_int`: absent fields, negative integers, and non-integer
values other than booleans become zero — but booleans pass Python's
`isinstance(..., int)` check (`bool` is an `int` subclass) and contribute
their integer value (`true` = 1, `false` = 0), and the record never fails. -/
theorem claim_C4 (stem : String) (line : Option JObj) (o : Obs)
    (h : extractLine stem line = some o) :
    (∃ ukvs : JObj, usageOf line = some ukvs ∧
      o.input_tokens = safeInt (jfind ukvs "input_tokens") ∧
      o.cache_creation_input_tokens = safeInt (jfind ukvs "cache_creation_input_tokens") ∧
      o.cache_read_input_tokens = safeInt (jfind ukvs "cache_read_input_tokens") ∧
      o.output_tokens = safeInt (jfind ukvs "output_tokens")) ∧
    safeInt none = 0 ∧
    (∀ v : JVal, (∀ n : Int, v ≠ .int n) → (∀ b : Bool, v ≠ .bool b) →
      safeInt (some v) = 0) ∧
    (∀ n : Int, n < 0 → safeInt (some (.int n)) = 0) ∧
    (∀ n : Int, 0 ≤ n → safeInt (some (.int n)) = n.toNat) ∧
    safeInt (some (.bool true)) = 1 ∧
    safeInt (some (.bool false)) = 0 := by
  refine ⟨extractLine_fields h, rfl, ?_, ?_, ?_, rfl, rfl⟩
  · intro v hni hnb
    cases v with
    | int n => exact absurd rfl (hni n)
    | bool b => exact absurd rfl (hnb b)
    | null => rfl
    | str s => rfl
    | arr l => rfl
    | obj kvs => rfl
  · intro n hn
    simp [safeInt, not_le.mpr hn]
  · intro n hn
    simp [safeInt, hn]

/-- C4 counterexample: a usage object whose `output_tokens` is the JSON
boolean `true` is not an integer literal, yet the code treats it as 1 (not 0):
the single-request date carries one token. -/
theorem claim_C4_counterexample :
    safeInt (some (JVal.bool true)) = 1 ∧
    (∀ n : Int, JVal.bool true ≠ JVal.int n) ∧
    collectClaudeDailyTotals (fun _ => 0) (some [claudeFileBool]) =
      [(⟨2026, 3, 1⟩, ⟨⟨2026, 3, 1⟩, 1, 1⟩)] ∧
    ¬ (∀ v : JVal, (∀ n : Int, v ≠ .int n) → safeInt (some v) = 0) := by
  refine ⟨rfl, fun n h => JVal.noConfusion h, by decide, fun h => ?_⟩
  have h1 := h (.bool true) (fun n hn => JVal.noConfusion hn)
  simp [safeInt] at h1

/-- Witness for C4 at the line of `claudeFileBool`. -/
theorem claim_C4_witness :
    (∃ ukvs : JObj,
      usageOf (some [("requestId", JVal.str "r1"),
        ("timestamp", JVal.str "2026-03-01T10:00:00Z"), ("sessionId", JVal.str "s1"),
        ("message", JVal.obj [("usage", JVal.obj [("output_tokens", JVal.bool true)])])]) =
          some ukvs ∧
      (⟨"s1", "r1", 1772359200, 0, 0, 0, 1⟩ : Obs).input_tokens =
        safeInt (jfind ukvs "input_tokens") ∧
      (⟨"s1", "r1", 1772359200, 0, 0, 0, 1⟩ : Obs).cache_creation_input_tokens =
        safeInt (jfind ukvs "cache_creation_input_tokens") ∧
      (⟨"s1", "r1", 1772359200, 0, 0, 0, 1⟩ : Obs).cache_read_input_tokens =
        safeInt (jfind ukvs "cache_read_input_tokens") ∧
      (⟨"s1", "r1", 1772359200, 0, 0, 0, 1⟩ : Obs).output_tokens =
        safeInt (jfind ukvs "output_tokens")) ∧
    safeInt none = 0 ∧
    (∀ v : JVal, (∀ n : Int, v ≠ .int n) → (∀ b : Bool, v ≠ .bool b) →
      safeInt (some v) = 0) ∧
    (∀ n : Int, n < 0 → safeInt (some (.int n)) = 0) ∧
    (∀ n : Int, 0 ≤ n → safeInt (some (.int n)) = n.toNat) ∧
    safeInt (some (.bool true)) = 1 ∧
    safeInt (some (.bool false)) = 0 :=
  claim_C4 "proj"
    (some [("requestId", JVal.str "r1"), ("timestamp", JVal.str "2026-03-01T10:00:00Z"),
      ("sessionId", JVal.str "s1"),
      ("message", JVal.obj [("usage", JVal.obj [("output_tokens", JVal.bool true)])])])
    ⟨"s1", "r1", 1772359200, 0, 0, 0, 1⟩ (by decide)

/-! ## C7: the combiner -/

theorem afind_combineBump (c : List (Date × DailyTotals)) (x : Date × DailyTotals)
    (a : Date) :
    afind (combineBump c x) a =
      if a = x.1 then
        some { date := ((afind c x.1).getD ⟨x.1, 0, 0⟩).date
               sessions := ((afind c x.1).getD ⟨x.1, 0, 0⟩).sessions + x.2.sessions
               total_tokens :=
                 ((afind c x.1).getD ⟨x.1, 0, 0⟩).total_tokens + x.2.total_tokens }
      else afind c a := by
  rw [combineBump, afind_aupd]
  cases h : afind c x.1 <;> simp [h]

/-- Per-date characterization of one combining step over one provider list. -/
theorem combineStep_afind (mi : List (Date × DailyTotals)) :
    ∀ c d, afind (combineStep c mi) d =
      if (mi.filter (fun p => p.1 = d)).isEmpty then afind c d
      else
        some { date := ((afind c d).getD ⟨d, 0, 0⟩).date
               sessions := ((afind c d).getD ⟨d, 0, 0⟩).sessions +
                 ((mi.filter (fun p => p.1 = d)).map (fun p => p.2.sessions)).sum
               total_tokens := ((afind c d).getD ⟨d, 0, 0⟩).total_tokens +
                 ((mi.filter (fun p => p.1 = d)).map (fun p => p.2.total_tokens)).sum } := by
  induction mi with
  | nil => intro c d; simp [combineStep]
  | cons x xs ih =>
    intro c d
    rw [show combineStep c (x :: xs) = combineStep (combineBump c x) xs from rfl, ih]
    by_cases hd : x.1 = d
    · have hfc : (x :: xs).filter (fun p => p.1 = d) = x :: xs.filter (fun p => p.1 = d) := by
        rw [List.filter_cons, if_pos (by simp [hd])]
      have hstep : afind (combineBump c x) d =
          some { date := ((afind c d).getD ⟨d, 0, 0⟩).date
                 sessions := ((afind c d).getD ⟨d, 0, 0⟩).sessions + x.2.sessions
                 total_tokens :=
                   ((afind c d).getD ⟨d, 0, 0⟩).total_tokens + x.2.total_tokens } := by
        rw [afind_combineBump, hd, if_pos rfl]
      rw [hfc, hstep]
      by_cases hrest : (xs.filter (fun p => p.1 = d)).isEmpty
      · have hre : xs.filter (fun p => p.1 = d) = [] := List.isEmpty_iff.mp hrest
        rw [if_pos hrest, hre, if_neg (by simp)]
        simp only [List.map_cons, List.map_nil, List.sum_cons, List.sum_nil, Option.getD_some]
        congr 1
        congr 1
        all_goals omega
      · rw [if_neg hrest, if_neg (by simp)]
        simp only [Option.getD_some, List.map_cons, List.sum_cons]
        congr 1
        congr 1
        all_goals omega
    · have hfc : (x :: xs).filter (fun p => p.1 = d) = xs.filter (fun p => p.1 = d) := by
        rw [List.filter_cons, if_neg (by simpa using hd)]
      have hstep : afind (combineBump c x) d = afind c d := by
        rw [afind_combineBump, if_neg (fun h => hd h.symm)]
      rw [hfc, hstep]

/-- With unique dates, the per-date filter of a mapping is its lookup. -/
theorem filter_eq_of_nodup (m : List (Date × DailyTotals))
    (hm : (m.map Prod.fst).Nodup) (d : Date) :
    m.filter (fun p => p.1 = d) =
      (match afind m d with
        | some v => [(d, v)]
        | none => []) := by
  induction m with
  | nil => rfl
  | cons q t ih =>
    obtain ⟨k, v⟩ := q
    rw [List.map_cons, List.nodup_cons] at hm
    rw [List.filter_cons]
    by_cases hk : k = d
    · subst hk
      rw [if_pos (by simp), afind_cons, if_pos rfl]
      have ht : t.filter (fun p => p.1 = k) = [] := by
        rw [ih hm.2]
        have : afind t k = none := (afind_eq_none_iff t k).mpr hm.1
        rw [this]
      rw [ht]
    · rw [if_neg (by simpa using hk), afind_cons, if_neg hk]
      exact ih hm.2

theorem addO_date {d : Date} {o1 o2 : Option DailyTotals} {t : DailyTotals}
    (h : addO d o1 o2 = some t) : t.date = d := by
  cases o1 <;> cases o2 <;> simp [addO] at h <;> rw [← h]

/-- One combining step acts per date as the option-level addition `addO`,
provided the accumulator's entry at the date (if any) carries that date. -/
theorem combineStep_addO (mi : List (Date × DailyTotals))
    (hmi : (mi.map Prod.fst).Nodup) (c : List (Date × DailyTotals)) (d : Date)
    (hc : ∀ t, afind c d = some t → t.date = d) :
    afind (combineStep c mi) d = addO d (afind c d) (afind mi d) := by
  rw [combineStep_afind, filter_eq_of_nodup mi hmi d]
  cases hmd : afind mi d with
  | none =>
    cases hcd : afind c d with
    | none => rfl
    | some t =>
      have hd := hc t hcd
      obtain ⟨td, ts, tt⟩ := t
      have hdd : td = d := hd
      subst hdd
      simp only [addO, Option.elim]
      simp only [List.isEmpty_nil, if_true]
      congr 2 <;> omega
  | some v =>
    cases hcd : afind c d with
    | none =>
      simp only [addO, Option.elim, Option.getD_none]
      simp only [List.isEmpty_cons, List.map_cons, List.map_nil, List.sum_cons, List.sum_nil]
      rw [if_neg (by simp)]
      congr 1
      congr 1
      all_goals omega
    | some t =>
      have hd := hc t hcd
      obtain ⟨td, ts, tt⟩ := t
      have hdd : td = d := hd
      subst hdd
      simp only [addO, Option.elim, Option.getD_some]
      simp only [List.isEmpty_cons, List.map_cons, List.map_nil, List.sum_cons, List.sum_nil]
      rw [if_neg (by simp)]
      congr 2 <;> omega

theorem combineStep_keys_nodup (mi : List (Date × DailyTotals)) :
    ∀ c, ((c.map Prod.fst).Nodup) → (((combineStep c mi).map Prod.fst).Nodup) := by
  induction mi with
  | nil => intro c hc; exact hc
  | cons x xs ih =>
    intro c hc
    exact ih (combineBump c x) (nodup_keys_aupd hc x.1 _ _)

/-- The combined mapping has pairwise-distinct date keys. -/
theorem combine_keys_nodup (ms : List (List (Date × DailyTotals))) :
    ((combineDailyTotals ms).map Prod.fst).Nodup := by
  have h : ∀ c, ((c.map Prod.fst).Nodup) →
      (((ms.foldl combineStep c).map Prod.fst).Nodup) := by
    induction ms with
    | nil => intro c hc; exact hc
    | cons mi ms ih => intro c hc; exact ih _ (combineStep_keys_nodup mi c hc)
  exact h [] List.nodup_nil

/-- The whole combining fold acts per date as a fold of `addO` over the
per-provider lookups. -/
theorem combineFold_addO (d : Date) :
    ∀ ms : List (List (Date × DailyTotals)), (∀ mi ∈ ms, (mi.map Prod.fst).Nodup) →
      ∀ c, (∀ t, afind c d = some t → t.date = d) →
      afind (ms.foldl combineStep c) d =
        ms.foldl (fun o mi => addO d o (afind mi d)) (afind c d) := by
  intro ms
  induction ms with
  | nil => intro _ c _; rfl
  | cons mi ms ih =>
    intro hms c hc
    have hmi : (mi.map Prod.fst).Nodup := hms mi (List.mem_cons_self _ _)
    have hms' : ∀ x ∈ ms, (x.map Prod.fst).Nodup :=
      fun x hx => hms x (List.mem_cons_of_mem _ hx)
    have hstep := combineStep_addO mi hmi c d hc
    have hc' : ∀ t, afind (combineStep c mi) d = some t → t.date = d := by
      intro t ht
      rw [hstep] at ht
      exact addO_date ht
    calc afind ((mi :: ms).foldl combineStep c) d
        = afind (ms.foldl combineStep (combineStep c mi)) d := rfl
      _ = ms.foldl (fun o x => addO d o (afind x d)) (afind (combineStep c mi) d) :=
          ih hms' (combineStep c mi) hc'
      _ = ms.foldl (fun o x => addO d o (afind x d)) (addO d (afind c d) (afind mi d)) := by
          rw [hstep]
      _ = (mi :: ms).foldl (fun o x => addO d o (afind x d)) (afind c d) := rfl

/-- A fold of `addO` over per-provider lookups is `none` when every provider
misses the date, and otherwise the field-wise sum of the providers' entries. -/
theorem addOFold_sum (d : Date) :
    ∀ (ms : List (List (Date × DailyTotals))) (o : Option DailyTotals),
      (∀ t, o = some t → t.date = d) →
      ms.foldl (fun o mi => addO d o (afind mi d)) o =
        (if o = none ∧ ∀ mi ∈ ms, afind mi d = none then none
        else
          some { date := d
                 sessions := o.elim 0 (fun t => t.sessions) +
                   (ms.map (fun mi => (afind mi d).elim 0 (fun t => t.sessions))).sum
                 total_tokens := o.elim 0 (fun t => t.total_tokens) +
                   (ms.map (fun mi => (afind mi d).elim 0 (fun t => t.total_tokens))).sum }) := by
  intro ms
  induction ms with
  | nil =>
    intro o ho
    cases o with
    | none => rw [if_pos ⟨rfl, by intro mi h; cases h⟩]; rfl
    | some t =>
      rw [if_neg (fun hcon => Option.noConfusion hcon.1)]
      have hd : t.date = d := ho t rfl
      obtain ⟨td, ts, tt⟩ := t
      have hdd : td = d := hd
      subst hdd
      simp only [List.foldl_nil, List.map_nil, List.sum_nil, Option.elim]
      congr 2 <;> omega
  | cons mi ms ih =>
    intro o ho
    have hfold : (mi :: ms).foldl (fun o x => addO d o (afind x d)) o
        = ms.foldl (fun o x => addO d o (afind x d)) (addO d o (afind mi d)) := rfl
    rw [hfold]
    have ho' : ∀ t, addO d o (afind mi d) = some t → t.date = d := fun _ ht => addO_date ht
    rw [ih (addO d o (afind mi d)) ho']
    cases o with
    | none =>
      cases hmd : afind mi d with
      | none =>
        have ha : addO d none none = (none : Option DailyTotals) := rfl
        by_cases hall : ∀ x ∈ ms, afind x d = none
        · rw [ha, if_pos ⟨rfl, hall⟩,
            if_pos ⟨rfl, (List.forall_mem_cons).mpr ⟨hmd, hall⟩⟩]
        · rw [ha, if_neg (fun hcon => hall hcon.2),
            if_neg (fun hcon => hall (fun x hx => hcon.2 x (List.mem_cons_of_mem _ hx)))]
          simp only [List.map_cons, List.sum_cons, hmd, Option.elim_none]
          congr 2 <;> omega
      | some v =>
        have ha : addO d none (some v) =
            some { date := d, sessions := 0 + v.sessions
                   total_tokens := 0 + v.total_tokens } := rfl
        rw [ha, if_neg (fun hcon => Option.noConfusion hcon.1),
          if_neg (fun hcon => by
            have hx := hcon.2 mi (List.mem_cons_self _ _)
            rw [hmd] at hx
            exact Option.noConfusion hx)]
        simp only [List.map_cons, List.sum_cons, hmd, Option.elim_none, Option.elim_some]
        congr 2 <;> omega
    | some t =>
      cases hmd : afind mi d with
      | none =>
        have ha : addO d (some t) none =
            some { date := d, sessions := t.sessions + 0
                   total_tokens := t.total_tokens + 0 } := rfl
        rw [ha, if_neg (fun hcon => Option.noConfusion hcon.1),
          if_neg (fun hcon => Option.noConfusion hcon.1)]
        simp only [List.map_cons, List.sum_cons, hmd, Option.elim_none, Option.elim_some]
        congr 2 <;> omega
      | some v =>
        have ha : addO d (some t) (some v) =
            some { date := d, sessions := t.sessions + v.sessions
                   total_tokens := t.total_tokens + v.total_tokens } := rfl
        rw [ha, if_neg (fun hcon => Option.noConfusion hcon.1),
          if_neg (fun hcon => Option.noConfusion hcon.1)]
        simp only [List.map_cons, List.sum_cons, hmd, Option.elim_none, Option.elim_some]
        congr 2 <;> omega

theorem pair_nodup_mem {a b mi : List (Date × DailyTotals)}
    (ha : (a.map Prod.fst).Nodup) (hb : (b.map Prod.fst).Nodup)
    (h : mi ∈ [a, b]) : (mi.map Prod.fst).Nodup := by
  rcases List.mem_cons.mp h with rfl | h2
  · exact ha
  rcases List.mem_cons.mp h2 with rfl | h3
  · exact hb
  cases h3

/-- Combining exactly two providers acts per date as two `addO` additions. -/
theorem combine2_afind (a b : List (Date × DailyTotals))
    (ha : (a.map Prod.fst).Nodup) (hb : (b.map Prod.fst).Nodup) (d : Date) :
    afind (combineDailyTotals [a, b]) d =
      addO d (addO d none (afind a d)) (afind b d) :=
  combineFold_addO d [a, b] (fun _ hmi => pair_nodup_mem ha hb hmi) []
    (fun _ ht => Option.noConfusion ht)

theorem addO_comm2 (d : Date) (o1 o2 : Option DailyTotals) :
    addO d (addO d none o1) o2 = addO d (addO d none o2) o1 := by
  rcases o1 with _ | t <;> rcases o2 with _ | v <;> simp [addO] <;> omega

theorem addO_assoc3 (d : Date) (o1 o2 o3 : Option DailyTotals) :
    addO d (addO d none (addO d (addO d none o1) o2)) o3 =
      addO d (addO d none o1) (addO d (addO d none o2) o3) := by
  rcases o1 with _ | t <;> rcases o2 with _ | u <;> rcases o3 with _ | v <;>
    simp [addO] <;> omega

/-- Per-date characterization of the combiner: absent from every input means
absent from the output, and otherwise the entry holds the field-wise sums. -/
theorem combine_afind (ms : List (List (Date × DailyTotals)))
    (hms : ∀ mi ∈ ms, (mi.map Prod.fst).Nodup) (d : Date) :
    afind (combineDailyTotals ms) d =
      (if ∀ mi ∈ ms, afind mi d = none then none
      else
        some { date := d
               sessions := (ms.map (fun mi => (afind mi d).elim 0 (fun t => t.sessions))).sum
               total_tokens :=
                 (ms.map (fun mi => (afind mi d).elim 0 (fun t => t.total_tokens))).sum }) := by
  have h1 := combineFold_addO d ms hms [] (fun _ ht => Option.noConfusion ht)
  have h2 := addOFold_sum d ms none (fun _ ht => Option.noConfusion ht)
  rw [show combineDailyTotals ms = ms.foldl combineStep [] from rfl, h1,
    show afind ([] : List (Date × DailyTotals)) d = none from rfl, h2]
  by_cases hall : ∀ mi ∈ ms, afind mi d = none
  · rw [if_pos ⟨rfl, hall⟩, if_pos hall]
  · rw [if_neg (fun hcon => hall hcon.2), if_neg hall]
    simp only [Option.elim_none]
    congr 2 <;> omega

/-- C7: combining per-provider daily mappings is commutative (combining
[A, B] and [B, A] give the same per-date entries) and associative (nesting
the combiner either way gives the same per-date entries), and for each date
the combined entry's sessions and total_tokens are the field-wise sums over
the input mappings that have the date, an input lacking the date
contributing zero; a date every input lacks is absent from the result. -/
theorem claim_C7 (a b c : List (Date × DailyTotals))
    (ms : List (List (Date × DailyTotals)))
    (hms : ∀ mi ∈ ms, (mi.map Prod.fst).Nodup)
    (ha : (a.map Prod.fst).Nodup) (hb : (b.map Prod.fst).Nodup)
    (hc : (c.map Prod.fst).Nodup) (d : Date) :
    (afind (combineDailyTotals ms) d =
      (if ∀ mi ∈ ms, afind mi d = none then none
      else
        some { date := d
               sessions := (ms.map (fun mi => (afind mi d).elim 0 (fun t => t.sessions))).sum
               total_tokens :=
                 (ms.map (fun mi => (afind mi d).elim 0 (fun t => t.total_tokens))).sum })) ∧
    afind (combineDailyTotals [a, b]) d = afind (combineDailyTotals [b, a]) d ∧
    afind (combineDailyTotals [combineDailyTotals [a, b], c]) d =
      afind (combineDailyTotals [a, combineDailyTotals [b, c]]) d := by
  refine ⟨combine_afind ms hms d, ?_, ?_⟩
  · rw [combine2_afind a b ha hb d, combine2_afind b a hb ha d, addO_comm2]
  · rw [combine2_afind (combineDailyTotals [a, b]) c (combine_keys_nodup _) hc d,
      combine2_afind a (combineDailyTotals [b, c]) ha (combine_keys_nodup _) d,
      combine2_afind a b ha hb d, combine2_afind b c hb hc d, addO_assoc3]

/-- Witness for C7 at the spec's example: {sessions=2, tokens=300} plus
{sessions=3, tokens=700} on 2026-01-05 combine to {sessions=5, tokens=1000},
and the commutativity/associativity instances hold there. -/
theorem claim_C7_witness :
    (∀ mi ∈ [combineExA, combineExB], (mi.map Prod.fst).Nodup) ∧
    (combineExA.map Prod.fst).Nodup ∧ (combineExB.map Prod.fst).Nodup ∧
    (combineExC.map Prod.fst).Nodup ∧
    afind (combineDailyTotals [combineExA, combineExB]) ⟨2026, 1, 5⟩ =
      some ⟨⟨2026, 1, 5⟩, 5, 1000⟩ ∧
    ((afind (combineDailyTotals [combineExA, combineExB]) ⟨2026, 1, 5⟩ =
      (if ∀ mi ∈ [combineExA, combineExB], afind mi (⟨2026, 1, 5⟩ : Date) = none then none
      else
        some { date := ⟨2026, 1, 5⟩
               sessions := ([combineExA, combineExB].map
                 (fun mi => (afind mi (⟨2026, 1, 5⟩ : Date)).elim 0 (fun t => t.sessions))).sum
               total_tokens := ([combineExA, combineExB].map
                 (fun mi =>
                   (afind mi (⟨2026, 1, 5⟩ : Date)).elim 0 (fun t => t.total_tokens))).sum })) ∧
    afind (combineDailyTotals [combineExA, combineExB]) ⟨2026, 1, 5⟩ =
      afind (combineDailyTotals [combineExB, combineExA]) ⟨2026, 1, 5⟩ ∧
    afind (combineDailyTotals [combineDailyTotals [combineExA, combineExB], combineExC])
        ⟨2026, 1, 5⟩ =
      afind (combineDailyTotals [combineExA, combineDailyTotals [combineExB, combineExC]])
        ⟨2026, 1, 5⟩) :=
  ⟨by decide, by decide, by decide, by decide, by decide,
    claim_C7 combineExA combineExB combineExC [combineExA, combineExB]
      (by decide) (by decide) (by decide) (by decide) ⟨2026, 1, 5⟩⟩
